import Mathlib

/-!
# A shallow embedding of `vm.c`

The register/stack bytecode machine of `src/vm.c`: `getBasePointer`,
`executeInstruction`, `initVM` and the fetch-execute loop of `simulateVM`.

Conventions of the embedding.

* A C `int` is a 32-bit two's-complement integer (`CInt`); every `+`, `-`, `*`
  of the source is followed by an explicit reduction into that range (`wrap32`).
* The arrays `RF`, `stack`, `AR`, `ins` and `opcodes` are lists; an access
  outside the array, a division by zero and the quotient `INT_MIN / -1` have no
  defined behaviour in C, and the embedding returns `none` there.
* The two `FILE*` channels of the machine are lists of integers, `stderr` is a
  counter of the diagnostics written to it.
-/

namespace VM

/-! ## Machine integers -/

/-- Reduction of a mathematical integer into the range of a 32-bit `int`. -/
def wrap32 (x : Int) : Int := (x + 2147483648) % 4294967296 - 2147483648

/-- The C type `int`: the integers from `-2^31` to `2^31 - 1`. -/
abbrev CInt : Type := { x : Int // -2147483648 ≤ x ∧ x < 2147483648 }

namespace CInt

/-- The `int` that a mathematical integer becomes when stored. -/
def ofInt (x : Int) : CInt := ⟨wrap32 x, by unfold wrap32; omega⟩

/-- The operator `a + b` on `int`. -/
def add (a b : CInt) : CInt := ofInt (a.val + b.val)

/-- The operator `a - b` on `int`. -/
def sub (a b : CInt) : CInt := ofInt (a.val - b.val)

/-- The operator `a * b` on `int`. -/
def mul (a b : CInt) : CInt := ofInt (a.val * b.val)

/-- The value of a C comparison: `1` when it holds and `0` otherwise. -/
def ofBool (b : Bool) : CInt := if b then ofInt 1 else ofInt 0

end CInt

/-! ## Arrays -/

/-- The element of an array at a mathematical index; `none` outside the array. -/
def slotAt (xs : List CInt) (i : Int) : Option CInt :=
  if 0 ≤ i then xs[i.toNat]? else none

/-- The read `xs[i]` of an `int` array; `none` outside the array. -/
def readAt (xs : List CInt) (i : CInt) : Option CInt := slotAt xs i.val

/-- The write `xs[i] = x` into an `int` array; `none` outside the array. -/
def writeAt (xs : List CInt) (i : CInt) (x : CInt) : Option (List CInt) :=
  if 0 ≤ i.val ∧ i.val.toNat < xs.length then some (xs.set i.val.toNat x) else none

/-! ## Data model -/

/-- Modelled from the spec: the record `Instruction` of the header `data.h`,
which is not among the sources; its four `int` fields are the ones `vm.c`
reads (`op`, `r`, `l`, `m`). -/
structure Instruction where
  op : CInt
  r : CInt
  l : CInt
  m : CInt
deriving DecidableEq

/-- Modelled from the spec: the record `VirtualMachine` of the header `vm.h`,
which is not among the sources; the fields are the ones `vm.c` uses. The
lengths of `RF` and `stack` stand for the constants of the header that size
the two arrays. -/
structure VirtualMachine where
  BP : CInt
  SP : CInt
  PC : CInt
  IR : CInt
  RF : List CInt
  stack : List CInt
deriving DecidableEq

/-- The values of `enum { CONT, HALT }`. -/
inductive Status where
  | CONT
  | HALT
deriving DecidableEq

/-- The streams `vmIn`, `vmOut` and `stderr` that `executeInstruction` uses:
the integers still to be read, the integers printed so far, and the number of
`"Illegal instruction?"` diagnostics written. -/
structure Channels where
  vmIn : List CInt
  vmOut : List CInt
  vmErr : Nat
deriving DecidableEq

/-! ## `getBasePointer` -/

/-- The loop `while (L > 0) { base_ptr = stack[base_ptr + 0]; L--; }` run for
the given number of iterations. -/
def getBasePointerLoop (stack : List CInt) : Nat → CInt → Option CInt
  | 0, base_ptr => some base_ptr
  | n + 1, base_ptr =>
    match readAt stack (base_ptr.add (CInt.ofInt 0)) with
    | none => none
    | some next => getBasePointerLoop stack n next

/-- The function `getBasePointer(stack, currentBP, L)`: the loop runs `L` times
when `L > 0` and not at all otherwise. -/
def getBasePointer (stack : List CInt) (currentBP L : CInt) : Option CInt :=
  getBasePointerLoop stack L.val.toNat currentBP

/-- The indices of the static-link slots that `getBasePointer` reads while it
chases the given number of levels from a base. -/
def chainSlots (stack : List CInt) : Nat → CInt → List Int
  | 0, _ => []
  | n + 1, base_ptr =>
    base_ptr.val ::
      (match readAt stack base_ptr with
       | none => []
       | some next => chainSlots stack n next)

/-! ## `executeInstruction` -/

/-- The function `executeInstruction(vm, ins, vmIn, vmOut)`: the new machine,
the new streams and the returned status. -/
def executeInstruction (vm : VirtualMachine) (ins : Instruction) (ch : Channels) :
    Option (VirtualMachine × Channels × Status) :=
  match ins.op.val with
  | 1 => do
    let RF ← writeAt vm.RF ins.r ins.m
    some ({ vm with RF := RF }, ch, Status.CONT)
  | 2 => do
    let SP := vm.BP.sub (CInt.ofInt 1)
    let BP ← readAt vm.stack (SP.add (CInt.ofInt 2))
    let PC ← readAt vm.stack (SP.add (CInt.ofInt 3))
    some ({ vm with SP := SP, BP := BP, PC := PC }, ch, Status.CONT)
  | 3 => do
    let base ← getBasePointer vm.stack vm.BP ins.l
    let x ← readAt vm.stack ((base.add ins.m).sub (CInt.ofInt 1))
    let RF ← writeAt vm.RF ins.r x
    some ({ vm with RF := RF }, ch, Status.CONT)
  | 4 => do
    let base ← getBasePointer vm.stack vm.BP ins.l
    let x ← readAt vm.RF ins.r
    let stack ← writeAt vm.stack ((base.add ins.m).sub (CInt.ofInt 1)) x
    some ({ vm with stack := stack }, ch, Status.CONT)
  | 5 => do
    let s0 ← writeAt vm.stack (vm.SP.add (CInt.ofInt 0)) (CInt.ofInt 0)
    let base ← getBasePointer s0 vm.BP ins.l
    let s1 ← writeAt s0 (vm.SP.add (CInt.ofInt 1)) base
    let s2 ← writeAt s1 (vm.SP.add (CInt.ofInt 2)) vm.BP
    let s3 ← writeAt s2 (vm.SP.add (CInt.ofInt 3)) vm.PC
    some ({ vm with stack := s3, BP := vm.SP.add (CInt.ofInt 1), PC := ins.m },
      ch, Status.CONT)
  | 6 => some ({ vm with SP := vm.SP.add ins.m }, ch, Status.CONT)
  | 7 => some ({ vm with PC := ins.m }, ch, Status.CONT)
  | 8 => do
    let x ← readAt vm.RF ins.r
    if x.val = 0 then some ({ vm with PC := ins.m }, ch, Status.CONT)
    else some (vm, ch, Status.CONT)
  | 9 => do
    let x ← readAt vm.RF ins.r
    some (vm, { ch with vmOut := ch.vmOut ++ [x] }, Status.CONT)
  | 10 => do
    let _ ← readAt vm.RF ins.r
    match ch.vmIn with
    | [] => some (vm, ch, Status.CONT)
    | x :: rest => do
      let RF ← writeAt vm.RF ins.r x
      some ({ vm with RF := RF }, { ch with vmIn := rest }, Status.CONT)
  | 11 => some (vm, ch, Status.HALT)
  | 12 => do
    let a ← readAt vm.RF ins.l
    let RF ← writeAt vm.RF ins.r ((CInt.ofInt (-1)).mul a)
    some ({ vm with RF := RF }, ch, Status.CONT)
  | 13 => do
    let a ← readAt vm.RF ins.l
    let b ← readAt vm.RF ins.m
    let RF ← writeAt vm.RF ins.r (a.add b)
    some ({ vm with RF := RF }, ch, Status.CONT)
  | 14 => do
    let a ← readAt vm.RF ins.l
    let b ← readAt vm.RF ins.m
    let RF ← writeAt vm.RF ins.r (a.sub b)
    some ({ vm with RF := RF }, ch, Status.CONT)
  | 15 => do
    let a ← readAt vm.RF ins.l
    let b ← readAt vm.RF ins.m
    let RF ← writeAt vm.RF ins.r (a.mul b)
    some ({ vm with RF := RF }, ch, Status.CONT)
  | 16 => do
    let a ← readAt vm.RF ins.l
    let b ← readAt vm.RF ins.m
    if b.val = 0 ∨ (a.val = -2147483648 ∧ b.val = -1) then none
    else do
      let RF ← writeAt vm.RF ins.r (CInt.ofInt (a.val.tdiv b.val))
      some ({ vm with RF := RF }, ch, Status.CONT)
  | 17 => do
    let a ← readAt vm.RF ins.r
    let RF ← writeAt vm.RF ins.r (CInt.ofInt (a.val.tmod 2))
    some ({ vm with RF := RF }, ch, Status.CONT)
  | 18 => do
    let a ← readAt vm.RF ins.l
    let b ← readAt vm.RF ins.m
    if b.val = 0 ∨ (a.val = -2147483648 ∧ b.val = -1) then none
    else do
      let RF ← writeAt vm.RF ins.r (CInt.ofInt (a.val.tmod b.val))
      some ({ vm with RF := RF }, ch, Status.CONT)
  | 19 => do
    let a ← readAt vm.RF ins.l
    let b ← readAt vm.RF ins.m
    let RF ← writeAt vm.RF ins.r (CInt.ofBool (decide (a.val = b.val)))
    some ({ vm with RF := RF }, ch, Status.CONT)
  | 20 => do
    let a ← readAt vm.RF ins.l
    let b ← readAt vm.RF ins.m
    let RF ← writeAt vm.RF ins.r (CInt.ofBool (decide (a.val ≠ b.val)))
    some ({ vm with RF := RF }, ch, Status.CONT)
  | 21 => do
    let a ← readAt vm.RF ins.l
    let b ← readAt vm.RF ins.m
    let RF ← writeAt vm.RF ins.r (CInt.ofBool (decide (a.val < b.val)))
    some ({ vm with RF := RF }, ch, Status.CONT)
  | 22 => do
    let a ← readAt vm.RF ins.l
    let b ← readAt vm.RF ins.m
    let RF ← writeAt vm.RF ins.r (CInt.ofBool (decide (a.val ≤ b.val)))
    some ({ vm with RF := RF }, ch, Status.CONT)
  | 23 => do
    let a ← readAt vm.RF ins.l
    let b ← readAt vm.RF ins.m
    let RF ← writeAt vm.RF ins.r (CInt.ofBool (decide (a.val > b.val)))
    some ({ vm with RF := RF }, ch, Status.CONT)
  | 24 => do
    let a ← readAt vm.RF ins.l
    let b ← readAt vm.RF ins.m
    let RF ← writeAt vm.RF ins.r (CInt.ofBool (decide (a.val ≥ b.val)))
    some ({ vm with RF := RF }, ch, Status.CONT)
  | _ => some (vm, { ch with vmErr := ch.vmErr + 1 }, Status.HALT)

/-- An index that lies inside an array. -/
def validIdx (xs : List CInt) (i : CInt) : Prop := 0 ≤ i.val ∧ i.val < xs.length

instance (xs : List CInt) (i : CInt) : Decidable (validIdx xs i) := by
  unfold validIdx
  exact inferInstance

/-- The states and instructions on which C defines the behaviour of
`executeInstruction`: every register and stack index that the instruction uses
lies inside its array, and `DIV` and `MOD` neither divide by zero nor divide
`INT_MIN` by `-1`. -/
def stepDefined (vm : VirtualMachine) (ins : Instruction) : Prop :=
  match ins.op.val with
  | 1 => validIdx vm.RF ins.r
  | 2 => validIdx vm.stack ((vm.BP.sub (CInt.ofInt 1)).add (CInt.ofInt 2))
      ∧ validIdx vm.stack ((vm.BP.sub (CInt.ofInt 1)).add (CInt.ofInt 3))
  | 3 => validIdx vm.RF ins.r
      ∧ ∃ base, getBasePointer vm.stack vm.BP ins.l = some base
          ∧ validIdx vm.stack ((base.add ins.m).sub (CInt.ofInt 1))
  | 4 => validIdx vm.RF ins.r
      ∧ ∃ base, getBasePointer vm.stack vm.BP ins.l = some base
          ∧ validIdx vm.stack ((base.add ins.m).sub (CInt.ofInt 1))
  | 5 => 0 ≤ vm.SP.val ∧ vm.SP.val + 3 < vm.stack.length ∧ vm.SP.val + 3 < 2147483648
      ∧ (getBasePointer (vm.stack.set vm.SP.val.toNat (CInt.ofInt 0)) vm.BP ins.l).isSome
  | 6 => True
  | 7 => True
  | 8 => validIdx vm.RF ins.r
  | 9 => validIdx vm.RF ins.r
  | 10 => validIdx vm.RF ins.r
  | 11 => True
  | 12 => validIdx vm.RF ins.l ∧ validIdx vm.RF ins.r
  | 16 => validIdx vm.RF ins.r
      ∧ ∃ a b, readAt vm.RF ins.l = some a ∧ readAt vm.RF ins.m = some b
          ∧ b.val ≠ 0 ∧ ¬ (a.val = -2147483648 ∧ b.val = -1)
  | 17 => validIdx vm.RF ins.r
  | 18 => validIdx vm.RF ins.r
      ∧ ∃ a b, readAt vm.RF ins.l = some a ∧ readAt vm.RF ins.m = some b
          ∧ b.val ≠ 0 ∧ ¬ (a.val = -2147483648 ∧ b.val = -1)
  | 13 => validIdx vm.RF ins.l ∧ validIdx vm.RF ins.m ∧ validIdx vm.RF ins.r
  | 14 => validIdx vm.RF ins.l ∧ validIdx vm.RF ins.m ∧ validIdx vm.RF ins.r
  | 15 => validIdx vm.RF ins.l ∧ validIdx vm.RF ins.m ∧ validIdx vm.RF ins.r
  | 19 => validIdx vm.RF ins.l ∧ validIdx vm.RF ins.m ∧ validIdx vm.RF ins.r
  | 20 => validIdx vm.RF ins.l ∧ validIdx vm.RF ins.m ∧ validIdx vm.RF ins.r
  | 21 => validIdx vm.RF ins.l ∧ validIdx vm.RF ins.m ∧ validIdx vm.RF ins.r
  | 22 => validIdx vm.RF ins.l ∧ validIdx vm.RF ins.m ∧ validIdx vm.RF ins.r
  | 23 => validIdx vm.RF ins.l ∧ validIdx vm.RF ins.m ∧ validIdx vm.RF ins.r
  | 24 => validIdx vm.RF ins.l ∧ validIdx vm.RF ins.m ∧ validIdx vm.RF ins.r
  | _ => True

/-! ## `initVM` and the loop of `simulateVM` -/

/-- The block `calloc(1, sizeof(VirtualMachine))`: every field zero. The two
lengths are the sizes that the header gives to `RF` and `stack`. -/
def callocVM (regCount stackHeight : Nat) : VirtualMachine :=
  { BP := CInt.ofInt 0, SP := CInt.ofInt 0, PC := CInt.ofInt 0, IR := CInt.ofInt 0,
    RF := List.replicate regCount (CInt.ofInt 0),
    stack := List.replicate stackHeight (CInt.ofInt 0) }

/-- The function `initVM(vm)`. -/
def initVM (vm : VirtualMachine) : VirtualMachine :=
  { vm with SP := CInt.ofInt 0, BP := CInt.ofInt 1, PC := CInt.ofInt 0, IR := CInt.ofInt 0 }

/-- The table `opcodes` of mnemonics, indexed by opcode. -/
def opcodes : List String :=
  ["illegal", "lit", "rtn", "lod", "sto", "cal", "inc", "jmp", "jpc", "sio", "sio",
   "sio", "neg", "add", "sub", "mul", "div", "odd", "mod", "eql", "neq",
   "lss", "leq", "gtr", "geq"]

/-- The read `opcodes[op]`; `none` outside the table. -/
def opcodeName (op : CInt) : Option String :=
  if 0 ≤ op.val then opcodes[op.val.toNat]? else none

/-- The read `ins[pc]` of the code memory; `none` outside the instructions
that were loaded. -/
def fetch (code : List Instruction) (pc : CInt) : Option Instruction :=
  if 0 ≤ pc.val then code[pc.val.toNat]? else none

/-- One line of the execution trace written to `outp`: the index of the
instruction, its mnemonic and fields, the three pointers after the step and the
stack cells printed after the initial zero (`none` is the divider `"| "`). -/
structure TraceLine where
  i : CInt
  opname : String
  r : CInt
  l : CInt
  m : CInt
  PC : CInt
  BP : CInt
  SP : CInt
  cells : List (Option CInt)
deriving DecidableEq

/-- The local state of `simulateVM` across iterations of its loop: the machine,
the streams, the array `AR` with `currentAR` and `flag`, and the trace lines
written so far. -/
structure Sim where
  vm : VirtualMachine
  ch : Channels
  AR : List CInt
  currentAR : CInt
  flag : CInt
  trace : List TraceLine
deriving DecidableEq

/-- The loop `for (j = 0; j < AR[currentAR]; j++) vm->stack[oldSP - j] = 0;` with
the given number of iterations left. -/
def clearFrame (oldSP : CInt) : Nat → CInt → List CInt → Option (List CInt)
  | 0, _, stack => some stack
  | n + 1, j, stack =>
    match writeAt stack (oldSP.sub j) (CInt.ofInt 0) with
    | none => none
    | some stack1 => clearFrame oldSP n (j.add (CInt.ofInt 1)) stack1

/-- The loop `for (j = 0, k = 0; AR[k] != 0; j++)` that prints the stack. Every
iteration reads `stack[j]` at a larger `j`, so `stack.length + 1` iterations are
never exceeded by a defined run. -/
def printCells (AR stack : List CInt) : Nat → CInt → CInt → CInt → Option (List (Option CInt))
  | 0, _, _, _ => none
  | fuel + 1, j, k, arIndex =>
    match readAt AR k with
    | none => none
    | some a =>
      if a.val = 0 then some []
      else
        match readAt stack j with
        | none => none
        | some x =>
          let printed : List (Option CInt) := if arIndex.val = 0 then [none, some x] else [some x]
          if arIndex.val = (a.sub (CInt.ofInt 1)).val then
            (printCells AR stack fuel (j.add (CInt.ofInt 1)) (k.add (CInt.ofInt 1))
              (CInt.ofInt 0)).map (fun rest => printed ++ rest)
          else
            (printCells AR stack fuel (j.add (CInt.ofInt 1)) k
              (arIndex.add (CInt.ofInt 1))).map (fun rest => printed ++ rest)

/-- The part "Update AR frequency array" of the loop body: from the machine
after `executeInstruction`, the value `oldSP`, the field `m` of the instruction
and the bookkeeping variables, the machine and the bookkeeping variables after
it. -/
def updateAR (vm : VirtualMachine) (oldSP m : CInt) (AR : List CInt) (currentAR flag : CInt) :
    Option (VirtualMachine × List CInt × CInt × CInt) :=
  if vm.IR.val = 2 then do
    let n ← readAt AR currentAR
    let stack ← clearFrame oldSP n.val.toNat (CInt.ofInt 0) vm.stack
    let AR1 ← writeAt AR currentAR (CInt.ofInt 0)
    some ({ vm with stack := stack }, AR1, currentAR.sub (CInt.ofInt 1), flag)
  else if vm.IR.val = 5 ∧ flag.val ≠ 0 then
    some (vm, AR, currentAR.add (CInt.ofInt 1), flag)
  else if vm.IR.val = 6 then do
    let n ← readAt AR currentAR
    let AR1 ← writeAt AR currentAR (n.add m)
    some (vm, AR1, currentAR, CInt.ofInt 1)
  else some (vm, AR, currentAR, flag)

/-- One iteration of the loop `while (!halt)` of `simulateVM`: fetch, advance
`PC`, execute, update the bookkeeping array, print the trace line. The status
is the new value of `halt`. -/
def simStep (code : List Instruction) (s : Sim) : Option (Sim × Status) := do
  let i := s.vm.PC
  let oldSP := s.vm.SP
  let cur ← fetch code s.vm.PC
  let vm0 : VirtualMachine := { s.vm with IR := cur.op }
  let vm1 : VirtualMachine := { vm0 with PC := vm0.PC.add (CInt.ofInt 1) }
  let (vm2, ch2, halt) ← executeInstruction vm1 cur s.ch
  let (vm3, AR3, currentAR3, flag3) ← updateAR vm2 oldSP cur.m s.AR s.currentAR s.flag
  let name ← opcodeName vm3.IR
  let cells ← printCells AR3 vm3.stack (vm3.stack.length + 1) (CInt.ofInt 0) (CInt.ofInt 0)
    (CInt.ofInt 0)
  let line : TraceLine :=
    { i := i, opname := name, r := cur.r, l := cur.l, m := cur.m,
      PC := vm3.PC, BP := vm3.BP, SP := vm3.SP, cells := cells }
  some ({ vm := vm3, ch := ch2, AR := AR3, currentAR := currentAR3, flag := flag3,
          trace := s.trace ++ [line] }, halt)

/-- How a run of the loop of `simulateVM` ends within a number of iterations:
it left the loop, it met a step without defined behaviour, or it is still
running. -/
inductive Outcome where
  | halted (s : Sim)
  | undefined
  | running (s : Sim)
deriving DecidableEq

/-- The loop `while (!halt)` of `simulateVM`, for at most the given number of
iterations. -/
def runLoop (code : List Instruction) : Nat → Sim → Outcome
  | 0, s => Outcome.running s
  | n + 1, s =>
    match simStep code s with
    | none => Outcome.undefined
    | some (s1, Status.HALT) => Outcome.halted s1
    | some (s1, Status.CONT) => runLoop code n s1

/-- The state of `simulateVM` when its loop is entered: the machine from
`calloc` and `initVM`, `AR` from `calloc(100, sizeof(int))`, `currentAR = 0`,
`flag = 0`, and no trace line yet. -/
def initSim (regCount stackHeight : Nat) (vmIn : List CInt) : Sim :=
  { vm := initVM (callocVM regCount stackHeight),
    ch := { vmIn := vmIn, vmOut := [], vmErr := 0 },
    AR := List.replicate 100 (CInt.ofInt 0),
    currentAR := CInt.ofInt 0, flag := CInt.ofInt 0, trace := [] }

/-- The function `simulateVM` on a program that was read into `ins` and an input
stream, for at most the given number of iterations of its loop. The listing of
`dumpInstructions` reads `opcodes[ins[i].op]` for every instruction, and the
array `ins` holds `MAX_CODE_LENGTH` instructions. -/
def simulateVM (regCount stackHeight MAX_CODE_LENGTH : Nat) (code : List Instruction)
    (vmIn : List CInt) (fuel : Nat) : Outcome :=
  if code.length ≤ MAX_CODE_LENGTH ∧ ∀ ins ∈ code, (opcodeName ins.op).isSome then
    runLoop code fuel (initSim regCount stackHeight vmIn)
  else Outcome.undefined

/-! ## Direct evaluation of expression programs -/

/-- The instructions of an expression program over a register file with
`regCount` registers: immediate load (`LIT`), output (`SIO 1`) and the
arithmetic `NEG`, `ADD`, `SUB`, `MUL`, with every register index that the
instruction uses inside the register file. -/
def straightLine (regCount : Nat) (ins : Instruction) : Prop :=
  (0 ≤ ins.r.val ∧ ins.r.val < regCount)
  ∧ (ins.op.val = 1 ∨ ins.op.val = 9
     ∨ (ins.op.val = 12 ∧ 0 ≤ ins.l.val ∧ ins.l.val < regCount)
     ∨ ((ins.op.val = 13 ∨ ins.op.val = 14 ∨ ins.op.val = 15)
        ∧ (0 ≤ ins.l.val ∧ ins.l.val < regCount) ∧ (0 ≤ ins.m.val ∧ ins.m.val < regCount)))

/-- The value of register `i` in a register file, as a mathematical integer. -/
def regValue (regs : List CInt) (i : CInt) : Int :=
  (regs.getD i.val.toNat (CInt.ofInt 0)).val

/-- Direct evaluation of one instruction of an expression program on a register
file and the list of values output so far, following the words of the
specification: an immediate load writes the immediate into the register, the
arithmetic instructions write the negation, sum, difference or product of the
source registers (wrapped to the width of `int`) into the result register, and
an output appends the value of the register to the output. -/
def evalDirect (st : List CInt × List CInt) (ins : Instruction) : List CInt × List CInt :=
  match ins.op.val with
  | 1 => (st.1.set ins.r.val.toNat ins.m, st.2)
  | 9 => (st.1, st.2 ++ [CInt.ofInt (regValue st.1 ins.r)])
  | 12 => (st.1.set ins.r.val.toNat (CInt.ofInt (- regValue st.1 ins.l)), st.2)
  | 13 => (st.1.set ins.r.val.toNat
            (CInt.ofInt (regValue st.1 ins.l + regValue st.1 ins.m)), st.2)
  | 14 => (st.1.set ins.r.val.toNat
            (CInt.ofInt (regValue st.1 ins.l - regValue st.1 ins.m)), st.2)
  | 15 => (st.1.set ins.r.val.toNat
            (CInt.ofInt (regValue st.1 ins.l * regValue st.1 ins.m)), st.2)
  | _ => st

/-- Direct evaluation of an expression program, instruction after instruction. -/
def directEval (prog : List Instruction) (st : List CInt × List CInt) :
    List CInt × List CInt :=
  prog.foldl evalDirect st

/-- The stack that `CAL` leaves: the four header slots written from slot `n` on. -/
def frameWritten (stack : List CInt) (n : Nat) (base BP PC : CInt) : List CInt :=
  (((stack.set n (CInt.ofInt 0)).set (n + 1) base).set (n + 2) BP).set (n + 3) PC

instance (regCount : Nat) (ins : Instruction) : Decidable (straightLine regCount ins) := by
  unfold straightLine
  infer_instance

/-! ## Concrete machines and instructions -/

/-- The instruction with the given four fields. -/
def Instruction.ofInts (op r l m : Int) : Instruction :=
  { op := CInt.ofInt op, r := CInt.ofInt r, l := CInt.ofInt l, m := CInt.ofInt m }

/-- The array of `int` with the given elements. -/
def cints (xs : List Int) : List CInt := xs.map CInt.ofInt

/-- Empty input, no output and no diagnostic yet. -/
def idleChannels : Channels := { vmIn := [], vmOut := [], vmErr := 0 }

/-- A machine in the main block (`BP = 1`) with four slots in use, eight
registers and sixteen stack slots. -/
def sampleVM : VirtualMachine :=
  { BP := CInt.ofInt 1, SP := CInt.ofInt 4, PC := CInt.ofInt 7, IR := CInt.ofInt 6,
    RF := cints [5, 0, 3, -2, 0, 0, 0, 0],
    stack := cints [0, 10, 20, 30, 40, 0, 0, 0, 0, 0, 0, 0, 0, 0, 0, 0] }

/-- A machine inside a procedure whose frame starts at slot 5: static link `1`,
dynamic link `1`, return address `12`. -/
def calleeVM : VirtualMachine :=
  { BP := CInt.ofInt 5, SP := CInt.ofInt 9, PC := CInt.ofInt 3, IR := CInt.ofInt 6,
    RF := cints [5, 0, 3, -2, 0, 0, 0, 0],
    stack := cints [0, 0, 0, 0, 0, 1, 1, 12, 0, 0, 0, 0, 0, 0, 0, 0] }

/-- The machine that the program `LIT 0 0 7; INC 0 0 1; STO 0 0 1` leaves when it
is run from the initial state: `SP = BP = 1` and slot `1` holds `7`. -/
def aliasVM : VirtualMachine :=
  { BP := CInt.ofInt 1, SP := CInt.ofInt 1, PC := CInt.ofInt 3, IR := CInt.ofInt 4,
    RF := cints [7, 0, 0, 0, 0, 0, 0, 0],
    stack := cints [0, 7, 0, 0, 0, 0, 0, 0, 0, 0, 0, 0, 0, 0, 0, 0] }

/-- The program `LIT 0 0 7; INC 0 0 1; STO 0 0 1; CAL 0 1 9`. -/
def aliasProgram : List Instruction :=
  [Instruction.ofInts 1 0 0 7, Instruction.ofInts 6 0 0 1, Instruction.ofInts 4 0 0 1,
   Instruction.ofInts 5 0 1 9]

/-- The program `LIT 0 0 3; LIT 1 0 4; ADD 2 0 1; SIO 2 0 1` (before its halt
instruction): load 3 and 4, add them into register 2, output register 2. -/
def sumProgram : List Instruction :=
  [Instruction.ofInts 1 0 0 3, Instruction.ofInts 1 1 0 4, Instruction.ofInts 13 2 0 1,
   Instruction.ofInts 9 2 0 1]

/-- A machine whose registers hold `-7`, `2`, `INT_MAX`, `1`, `INT_MIN`, `7`,
`-1` and `0`. -/
def arithVM : VirtualMachine :=
  { BP := CInt.ofInt 1, SP := CInt.ofInt 4, PC := CInt.ofInt 7, IR := CInt.ofInt 6,
    RF := cints [-7, 2, 2147483647, 1, -2147483648, 7, -1, 0],
    stack := cints [0, 10, 20, 30, 40, 0, 0, 0, 0, 0, 0, 0, 0, 0, 0, 0] }

/-- The program
`INC 0 0 4; CAL 0 0 3; SIO 0 0 3; INC 0 0 5; LIT 0 0 7; STO 0 0 5; RTN 0 0 0`:
the main block reserves four slots and calls the procedure at index 3, which
reserves its frame, stores `7` into its local at offset 5 and returns. -/
def frameProgram : List Instruction :=
  [Instruction.ofInts 6 0 0 4, Instruction.ofInts 5 0 0 3, Instruction.ofInts 11 0 0 3,
   Instruction.ofInts 6 0 0 5, Instruction.ofInts 1 0 0 7, Instruction.ofInts 4 0 0 5,
   Instruction.ofInts 2 0 0 0]

/-- The machine that `frameProgram` reaches from the initial state after five
iterations, when `RTN` is the next instruction: the frame of the procedure is
in slots `5 .. 9` (static link `1`, dynamic link `1`, return address `2`) and
its local in slot `9` holds `7`. -/
def frameVM : VirtualMachine :=
  { BP := CInt.ofInt 5, SP := CInt.ofInt 9, PC := CInt.ofInt 6, IR := CInt.ofInt 4,
    RF := cints [7, 0, 0, 0, 0, 0, 0, 0],
    stack := cints [0, 0, 0, 0, 0, 1, 1, 2, 0, 7, 0, 0, 0, 0, 0, 0] }

/-- The local state of `simulateVM` when `frameProgram` has run five iterations
from the initial state: the machine `frameVM`, and the bookkeeping that counts
four slots for the main block and five for the procedure. -/
def frameSim : Sim :=
  { vm := frameVM, ch := idleChannels,
    AR := cints (4 :: 5 :: List.replicate 98 0),
    currentAR := CInt.ofInt 1, flag := CInt.ofInt 1, trace := [] }

/-- The program `LIT 0 0 -5; STO 0 0 0; LIT 0 0 1; INC 0 0 1; STO 0 0 1`. -/
def chainProgram : List Instruction :=
  [Instruction.ofInts 1 0 0 (-5), Instruction.ofInts 4 0 0 0, Instruction.ofInts 1 0 0 1,
   Instruction.ofInts 6 0 0 1, Instruction.ofInts 4 0 0 1]

/-- The machine that `chainProgram` reaches from the initial state: `BP = SP = 1`,
slot `0` holds `-5` and slot `1` holds `1`, so that slot `1` links to itself. -/
def chainVM : VirtualMachine :=
  { BP := CInt.ofInt 1, SP := CInt.ofInt 1, PC := CInt.ofInt 5, IR := CInt.ofInt 4,
    RF := cints [1, 0, 0, 0, 0, 0, 0, 0],
    stack := cints [-5, 1, 0, 0, 0, 0, 0, 0, 0, 0, 0, 0, 0, 0, 0, 0] }

/-! ## Basic facts about machine integers and arrays -/

theorem wrap32_eq_self {x : Int} (h1 : -2147483648 ≤ x) (h2 : x < 2147483648) :
    wrap32 x = x := by
  unfold wrap32; omega

theorem CInt.ofInt_val (x : Int) : (CInt.ofInt x).val = wrap32 x := rfl

theorem CInt.add_val (a b : CInt) : (a.add b).val = wrap32 (a.val + b.val) := rfl

theorem CInt.sub_val (a b : CInt) : (a.sub b).val = wrap32 (a.val - b.val) := rfl

theorem CInt.mul_val (a b : CInt) : (a.mul b).val = wrap32 (a.val * b.val) := rfl

theorem CInt.ofInt_self (a : CInt) : CInt.ofInt a.val = a :=
  Subtype.ext (wrap32_eq_self a.2.1 a.2.2)

theorem CInt.add_zero (a : CInt) : a.add (CInt.ofInt 0) = a := by
  apply Subtype.ext
  have h := a.2
  simp only [CInt.add_val, CInt.ofInt_val, wrap32]
  omega

theorem slotAt_eq_some_iff {xs : List CInt} {i : Int} {x : CInt} :
    slotAt xs i = some x ↔ 0 ≤ i ∧ xs[i.toNat]? = some x := by
  unfold slotAt
  split <;> simp [*]

theorem slotAt_isSome_iff {xs : List CInt} {i : Int} :
    (slotAt xs i).isSome ↔ 0 ≤ i ∧ i < xs.length := by
  unfold slotAt
  split
  · rename_i h
    rw [Option.isSome_iff_exists]
    constructor
    · rintro ⟨x, hx⟩
      have := (List.getElem?_eq_some_iff.mp hx).1
      omega
    · rintro ⟨_, h2⟩
      have h3 : i.toNat < xs.length := by omega
      exact ⟨xs[i.toNat], List.getElem?_eq_getElem h3⟩
  · rename_i h
    simp [h]

theorem slotAt_set (xs : List CInt) (n : Nat) (x : CInt) (j : Int) :
    slotAt (xs.set n x) j
      = if j = (n : Int) ∧ n < xs.length then some x else slotAt xs j := by
  unfold slotAt
  by_cases hjn : j = (n : Int)
  · subst hjn
    have h0 : (0 : Int) ≤ (n : Int) := Int.ofNat_nonneg n
    simp only [h0, if_true, Int.toNat_ofNat, true_and, List.getElem?_set]
    split
    · rfl
    · exact (List.getElem?_eq_none (by omega)).symm
  · simp only [hjn, false_and, if_false]
    split
    · have hn : n ≠ j.toNat := by omega
      rw [List.getElem?_set_ne hn]
    · rfl

theorem writeAt_eq_some_iff {xs ys : List CInt} {i x : CInt} :
    writeAt xs i x = some ys ↔ (0 ≤ i.val ∧ i.val < xs.length) ∧ ys = xs.set i.val.toNat x := by
  unfold writeAt
  by_cases h : 0 ≤ i.val ∧ i.val.toNat < xs.length
  · have h2 : 0 ≤ i.val ∧ i.val < xs.length := by omega
    simp only [h, if_true, h2, true_and, Option.some.injEq]
    exact eq_comm
  · have h2 : ¬ (0 ≤ i.val ∧ i.val < xs.length) := by omega
    simp [h, h2]

theorem writeAt_of_bounds {xs : List CInt} {i : CInt} (x : CInt)
    (h0 : 0 ≤ i.val) (h1 : i.val < xs.length) :
    writeAt xs i x = some (xs.set i.val.toNat x) :=
  writeAt_eq_some_iff.mpr ⟨⟨h0, h1⟩, rfl⟩

theorem slotAt_of_bounds (xs : List CInt) (i : Int) (h0 : 0 ≤ i) (h1 : i < xs.length) :
    ∃ x, slotAt xs i = some x :=
  Option.isSome_iff_exists.mp (slotAt_isSome_iff.mpr ⟨h0, h1⟩)

/-! ## Equations of `executeInstruction`, opcode by opcode -/

theorem exec_rtn (vm : VirtualMachine) (ins : Instruction) (ch : Channels)
    (hop : ins.op.val = 2) :
    executeInstruction vm ins ch
      = (readAt vm.stack ((vm.BP.sub (CInt.ofInt 1)).add (CInt.ofInt 2))).bind (fun BP =>
          (readAt vm.stack ((vm.BP.sub (CInt.ofInt 1)).add (CInt.ofInt 3))).bind (fun PC =>
            some ({ vm with SP := vm.BP.sub (CInt.ofInt 1), BP := BP, PC := PC },
              ch, Status.CONT))) := by
  unfold executeInstruction
  simp only [hop]
  rfl

theorem exec_cal (vm : VirtualMachine) (ins : Instruction) (ch : Channels)
    (hop : ins.op.val = 5) :
    executeInstruction vm ins ch
      = (writeAt vm.stack (vm.SP.add (CInt.ofInt 0)) (CInt.ofInt 0)).bind (fun s0 =>
          (getBasePointer s0 vm.BP ins.l).bind (fun base =>
            (writeAt s0 (vm.SP.add (CInt.ofInt 1)) base).bind (fun s1 =>
              (writeAt s1 (vm.SP.add (CInt.ofInt 2)) vm.BP).bind (fun s2 =>
                (writeAt s2 (vm.SP.add (CInt.ofInt 3)) vm.PC).bind (fun s3 =>
                  some ({ vm with stack := s3, BP := vm.SP.add (CInt.ofInt 1), PC := ins.m },
                    ch, Status.CONT)))))) := by
  unfold executeInstruction
  simp only [hop]
  rfl

theorem frameWritten_length (stack : List CInt) (n : Nat) (base BP PC : CInt) :
    (frameWritten stack n base BP PC).length = stack.length := by
  simp [frameWritten]

theorem frameWritten_slots (stack : List CInt) (n : Nat) (base BP PC : CInt)
    (h : n + 3 < stack.length) :
    slotAt (frameWritten stack n base BP PC) (n : Int) = some (CInt.ofInt 0)
    ∧ slotAt (frameWritten stack n base BP PC) ((n : Int) + 1) = some base
    ∧ slotAt (frameWritten stack n base BP PC) ((n : Int) + 2) = some BP
    ∧ slotAt (frameWritten stack n base BP PC) ((n : Int) + 3) = some PC := by
  unfold frameWritten
  refine ⟨?_, ?_, ?_, ?_⟩ <;>
  · simp only [slotAt_set, List.length_set]
    repeat' split
    all_goals first | rfl | omega | (simp only [true_and] at *; omega)

theorem frameWritten_outside (stack : List CInt) (n : Nat) (base BP PC : CInt) (i : Int)
    (h : i < (n : Int) ∨ (n : Int) + 3 < i) :
    slotAt (frameWritten stack n base BP PC) i = slotAt stack i := by
  unfold frameWritten
  simp only [slotAt_set, List.length_set]
  repeat' split
  all_goals first | rfl | omega

theorem CInt.add_small (a : CInt) (k : Int) (hk : 0 ≤ k ∧ k ≤ 3) (ha : 0 ≤ a.val)
    (h : 0 ≤ (a.add (CInt.ofInt k)).val) :
    (a.add (CInt.ofInt k)).val = a.val + k ∧ a.val + k < 2147483648 := by
  have h2 := a.2
  simp only [CInt.add_val, CInt.ofInt_val, wrap32] at h ⊢
  omega

theorem CInt.add_exact (a : CInt) (k : Int) (hk : 0 ≤ k ∧ k ≤ 3) (ha : 0 ≤ a.val)
    (h : a.val + k < 2147483648) :
    (a.add (CInt.ofInt k)).val = a.val + k := by
  simp only [CInt.add_val, CInt.ofInt_val, wrap32]
  omega

/-- What a defined `CAL` does: the header slots lie inside the stack, the static
link was chased in the stack whose slot `SP` is already zero, and the result is
the machine with the header written, `BP = SP + 1` and `PC = m`. -/
theorem exec_cal_eq_some (vm : VirtualMachine) (ins : Instruction) (ch : Channels)
    (hop : ins.op.val = 5) (res : VirtualMachine × Channels × Status)
    (h : executeInstruction vm ins ch = some res) :
    ∃ base, 0 ≤ vm.SP.val ∧ vm.SP.val + 3 < vm.stack.length ∧ vm.SP.val + 3 < 2147483648
      ∧ getBasePointer (vm.stack.set vm.SP.val.toNat (CInt.ofInt 0)) vm.BP ins.l = some base
      ∧ res = ({ vm with stack := frameWritten vm.stack vm.SP.val.toNat base vm.BP vm.PC,
                         BP := vm.SP.add (CInt.ofInt 1), PC := ins.m }, ch, Status.CONT) := by
  rw [exec_cal vm ins ch hop] at h
  simp only [Option.bind_eq_some] at h
  obtain ⟨s0, h0, base, hb, s1, h1, s2, h2, s3, h3, hr⟩ := h
  rw [writeAt_eq_some_iff] at h0 h1 h2 h3
  obtain ⟨⟨a0, b0⟩, rfl⟩ := h0
  obtain ⟨⟨a1, b1⟩, rfl⟩ := h1
  obtain ⟨⟨a2, b2⟩, rfl⟩ := h2
  obtain ⟨⟨a3, b3⟩, rfl⟩ := h3
  rw [CInt.add_zero] at a0 b0 hb hr
  obtain ⟨e1, -⟩ := CInt.add_small vm.SP 1 (by omega) a0 a1
  obtain ⟨e2, -⟩ := CInt.add_small vm.SP 2 (by omega) a0 a2
  obtain ⟨e3, c3⟩ := CInt.add_small vm.SP 3 (by omega) a0 a3
  simp only [List.length_set] at b3
  have t1 : (vm.SP.add (CInt.ofInt 1)).val.toNat = vm.SP.val.toNat + 1 := by omega
  have t2 : (vm.SP.add (CInt.ofInt 2)).val.toNat = vm.SP.val.toNat + 2 := by omega
  have t3 : (vm.SP.add (CInt.ofInt 3)).val.toNat = vm.SP.val.toNat + 3 := by omega
  rw [t1, t2, t3] at hr
  refine ⟨base, a0, by omega, c3, hb, ?_⟩
  exact (Option.some.inj hr).symm

theorem exec_cal_of_bounds (vm : VirtualMachine) (ins : Instruction) (ch : Channels)
    (hop : ins.op.val = 5) (base : CInt)
    (h0 : 0 ≤ vm.SP.val) (h3 : vm.SP.val + 3 < vm.stack.length)
    (hcap : vm.SP.val + 3 < 2147483648 ∨ vm.stack.length ≤ 2147483648)
    (hb : getBasePointer (vm.stack.set vm.SP.val.toNat (CInt.ofInt 0)) vm.BP ins.l = some base) :
    executeInstruction vm ins ch
      = some ({ vm with stack := frameWritten vm.stack vm.SP.val.toNat base vm.BP vm.PC,
                        BP := vm.SP.add (CInt.ofInt 1), PC := ins.m }, ch, Status.CONT) := by
  have e1 := CInt.add_exact vm.SP 1 (by omega) h0 (by omega)
  have e2 := CInt.add_exact vm.SP 2 (by omega) h0 (by omega)
  have e3 := CInt.add_exact vm.SP 3 (by omega) h0 (by omega)
  have t1 : (vm.SP.add (CInt.ofInt 1)).val.toNat = vm.SP.val.toNat + 1 := by omega
  have t2 : (vm.SP.add (CInt.ofInt 2)).val.toNat = vm.SP.val.toNat + 2 := by omega
  have t3 : (vm.SP.add (CInt.ofInt 3)).val.toNat = vm.SP.val.toNat + 3 := by omega
  rw [exec_cal vm ins ch hop, CInt.add_zero,
    writeAt_of_bounds (CInt.ofInt 0) h0 (by omega), Option.some_bind, hb, Option.some_bind,
    writeAt_of_bounds base (by omega) (by simp only [List.length_set]; omega), Option.some_bind,
    writeAt_of_bounds vm.BP (by omega) (by simp only [List.length_set]; omega), Option.some_bind,
    writeAt_of_bounds vm.PC (by omega) (by simp only [List.length_set]; omega), Option.some_bind,
    t1, t2, t3]
  rfl

theorem exec_rtn_of_bounds (v : VirtualMachine) (ins : Instruction) (ch : Channels)
    (hop : ins.op.val = 2)
    (hlo : 0 ≤ v.BP.val + 1) (hhi : v.BP.val + 2 < v.stack.length)
    (hcap : v.stack.length ≤ 2147483648) :
    ∃ b p, slotAt v.stack (v.BP.val + 1) = some b ∧ slotAt v.stack (v.BP.val + 2) = some p
      ∧ (v.BP.sub (CInt.ofInt 1)).val = v.BP.val - 1
      ∧ executeInstruction v ins ch
          = some ({ v with SP := v.BP.sub (CInt.ofInt 1), BP := b, PC := p },
              ch, Status.CONT) := by
  have hb := v.BP.2
  have e2 : ((v.BP.sub (CInt.ofInt 1)).add (CInt.ofInt 2)).val = v.BP.val + 1 := by
    simp only [CInt.add_val, CInt.sub_val, CInt.ofInt_val, wrap32]; omega
  have e3 : ((v.BP.sub (CInt.ofInt 1)).add (CInt.ofInt 3)).val = v.BP.val + 2 := by
    simp only [CInt.add_val, CInt.sub_val, CInt.ofInt_val, wrap32]; omega
  have e1 : (v.BP.sub (CInt.ofInt 1)).val = v.BP.val - 1 := by
    simp only [CInt.sub_val, CInt.ofInt_val, wrap32]; omega
  obtain ⟨b, hb1⟩ := slotAt_of_bounds v.stack (v.BP.val + 1) hlo (by omega)
  obtain ⟨p, hp1⟩ := slotAt_of_bounds v.stack (v.BP.val + 2) (by omega) hhi
  refine ⟨b, p, hb1, hp1, e1, ?_⟩
  rw [exec_rtn v ins ch hop]
  simp only [readAt, e2, e3, hb1, hp1, Option.some_bind]

theorem getBasePointerLoop_set_of_not_mem (stack : List CInt) (sp : Nat) (x : CInt) :
    ∀ (n : Nat) (b : CInt), (sp : Int) ∉ chainSlots stack n b →
      getBasePointerLoop (stack.set sp x) n b = getBasePointerLoop stack n b := by
  intro n
  induction n with
  | zero => intro b _; rfl
  | succ n ih =>
    intro b hb
    simp only [chainSlots, List.mem_cons, not_or] at hb
    obtain ⟨hne, hrest⟩ := hb
    have hread : readAt (stack.set sp x) b = readAt stack b := by
      simp only [readAt, slotAt_set]
      rw [if_neg]
      intro hc
      exact hne hc.1.symm
    simp only [getBasePointerLoop, CInt.add_zero, hread]
    cases hr : readAt stack b with
    | none => rfl
    | some next =>
      simp only [hr] at hrest
      exact ih next hrest

/-! ## Theorems -/

/-- C1, as the code has it: a `CAL` at any lexical level followed at once by
`RTN` restores `BP`, `PC` and `SP` to their values before the `CAL`. The four
header slots `SP .. SP+3` lie inside the stack, whose capacity is an `int`, and
the static-link chain that `CAL` chases from `BP` stays inside the stack; `CAL`
chases it in the stack in which it has already set slot `SP` to `0`. -/
theorem call_then_return_restores (v : VirtualMachine) (cal rtn : Instruction) (ch : Channels)
    (hcal : cal.op.val = 5) (hrtn : rtn.op.val = 2)
    (h0 : 0 ≤ v.SP.val) (h3 : v.SP.val + 3 < v.stack.length)
    (hcap : v.stack.length ≤ 2147483648)
    (hchain : (getBasePointer (v.stack.set v.SP.val.toNat (CInt.ofInt 0)) v.BP cal.l).isSome) :
    ∃ v1 v2, executeInstruction v cal ch = some (v1, ch, Status.CONT)
      ∧ executeInstruction v1 rtn ch = some (v2, ch, Status.CONT)
      ∧ v2.BP = v.BP ∧ v2.PC = v.PC ∧ v2.SP = v.SP := by
  obtain ⟨base, hb⟩ := Option.isSome_iff_exists.mp hchain
  have hc := exec_cal_of_bounds v cal ch hcal base h0 h3 (Or.inr hcap) hb
  have e1 := CInt.add_exact v.SP 1 (by omega) h0 (by omega)
  have hn : ((v.SP.val.toNat : Nat) : Int) = v.SP.val := Int.toNat_of_nonneg h0
  have hlen := frameWritten_length v.stack v.SP.val.toNat base v.BP v.PC
  obtain ⟨-, -, s2, s3⟩ := frameWritten_slots v.stack v.SP.val.toNat base v.BP v.PC (by omega)
  rw [hn] at s2 s3
  obtain ⟨b, p, hb1, hp1, e, hr⟩ := exec_rtn_of_bounds
    { v with stack := frameWritten v.stack v.SP.val.toNat base v.BP v.PC,
             BP := v.SP.add (CInt.ofInt 1), PC := cal.m } rtn ch hrtn
    (by simp only [e1]; omega) (by simp only [e1, hlen]; omega) (by simp only [hlen]; exact hcap)
  simp only [e1] at hb1 hp1 e
  have hb2 : b = v.BP := by
    have : v.SP.val + 1 + 1 = v.SP.val + 2 := by omega
    rw [this, s2] at hb1
    exact (Option.some.inj hb1).symm
  have hp2 : p = v.PC := by
    have : v.SP.val + 1 + 2 = v.SP.val + 3 := by omega
    rw [this, s3] at hp1
    exact (Option.some.inj hp1).symm
  refine ⟨_, _, hc, hr, hb2, hp2, ?_⟩
  apply Subtype.ext
  simp only [e]
  omega

/-- C2, as the code has it: `CAL` writes into the four slots from `SP` on the
values `0`, the base reached by chasing `l` static links from `BP` in the stack
whose slot `SP` is already zero, `BP` and `PC`; the new `BP` is `SP + 1` and
the new `PC` is `m`. When the chase in the stack before the `CAL` does not read
slot `SP`, that base is the one chased in the stack before the `CAL`. -/
theorem cal_writes_header (v : VirtualMachine) (cal : Instruction) (ch : Channels)
    (hcal : cal.op.val = 5)
    (h0 : 0 ≤ v.SP.val) (h3 : v.SP.val + 3 < v.stack.length)
    (hcap : v.stack.length ≤ 2147483648) (base : CInt)
    (hb : getBasePointer (v.stack.set v.SP.val.toNat (CInt.ofInt 0)) v.BP cal.l = some base) :
    ∃ v1, executeInstruction v cal ch = some (v1, ch, Status.CONT)
      ∧ slotAt v1.stack v.SP.val = some (CInt.ofInt 0)
      ∧ slotAt v1.stack (v.SP.val + 1) = some base
      ∧ slotAt v1.stack (v.SP.val + 2) = some v.BP
      ∧ slotAt v1.stack (v.SP.val + 3) = some v.PC
      ∧ v1.BP.val = v.SP.val + 1 ∧ v1.PC = cal.m
      ∧ (v.SP.val ∉ chainSlots v.stack cal.l.val.toNat v.BP →
          getBasePointer v.stack v.BP cal.l = some base) := by
  have hc := exec_cal_of_bounds v cal ch hcal base h0 h3 (Or.inr hcap) hb
  have e1 := CInt.add_exact v.SP 1 (by omega) h0 (by omega)
  have hn : ((v.SP.val.toNat : Nat) : Int) = v.SP.val := Int.toNat_of_nonneg h0
  obtain ⟨s0, s1, s2, s3⟩ := frameWritten_slots v.stack v.SP.val.toNat base v.BP v.PC (by omega)
  rw [hn] at s0 s1 s2 s3
  refine ⟨_, hc, s0, s1, s2, s3, e1, rfl, ?_⟩
  intro hmem
  rw [← hn] at hmem
  rw [← hb]
  exact (getBasePointerLoop_set_of_not_mem v.stack v.SP.val.toNat (CInt.ofInt 0)
    cal.l.val.toNat v.BP hmem).symm

/-- C5: a `CAL` leaves `SP`, every register and every stack slot outside
`SP .. SP+3` as they were, and the stack keeps its size; and a `CAL` whose four
header slots and static-link chain lie inside the stack does return a result. -/
theorem cal_frame_effect (v : VirtualMachine) (cal : Instruction) (ch : Channels)
    (hcal : cal.op.val = 5) :
    (∀ v1 ch1 st, executeInstruction v cal ch = some (v1, ch1, st) →
      v1.SP = v.SP ∧ v1.RF = v.RF ∧ v1.stack.length = v.stack.length
      ∧ (∀ i : Int, i < v.SP.val ∨ v.SP.val + 3 < i → slotAt v1.stack i = slotAt v.stack i)
      ∧ ch1 = ch ∧ st = Status.CONT)
    ∧ (0 ≤ v.SP.val → v.SP.val + 3 < v.stack.length → v.stack.length ≤ 2147483648 →
        (getBasePointer (v.stack.set v.SP.val.toNat (CInt.ofInt 0)) v.BP cal.l).isSome →
        (executeInstruction v cal ch).isSome) := by
  constructor
  · intro v1 ch1 st h
    obtain ⟨base, h0, h3, -, -, hres⟩ := exec_cal_eq_some v cal ch hcal _ h
    have hn : ((v.SP.val.toNat : Nat) : Int) = v.SP.val := Int.toNat_of_nonneg h0
    simp only [Prod.mk.injEq] at hres
    obtain ⟨rfl, rfl, rfl⟩ := hres
    refine ⟨rfl, rfl, frameWritten_length _ _ _ _ _, ?_, rfl, rfl⟩
    intro i hi
    exact frameWritten_outside v.stack v.SP.val.toNat base v.BP v.PC i (by omega)
  · intro h0 h3 hcap hchain
    obtain ⟨base, hb⟩ := Option.isSome_iff_exists.mp hchain
    rw [exec_cal_of_bounds v cal ch hcal base h0 h3 (Or.inr hcap) hb]
    rfl

/-- C3: with the slots `BP + 1` and `BP + 2` inside the stack, `RTN` sets `SP`
to `BP - 1`, `BP` to the value of slot `BP + 1` (the dynamic link of the
departing frame) and `PC` to the value of slot `BP + 2` (its return address);
the registers and the stack are unchanged. -/
theorem rtn_restores_from_frame (v : VirtualMachine) (ins : Instruction) (ch : Channels)
    (hop : ins.op.val = 2)
    (hlo : 0 ≤ v.BP.val + 1) (hhi : v.BP.val + 2 < v.stack.length)
    (hcap : v.stack.length ≤ 2147483648) :
    ∃ v1, executeInstruction v ins ch = some (v1, ch, Status.CONT)
      ∧ v1.SP.val = v.BP.val - 1
      ∧ slotAt v.stack (v.BP.val + 1) = some v1.BP
      ∧ slotAt v.stack (v.BP.val + 2) = some v1.PC
      ∧ v1.RF = v.RF ∧ v1.stack = v.stack := by
  obtain ⟨b, p, hb1, hp1, e, hr⟩ := exec_rtn_of_bounds v ins ch hop hlo hhi hcap
  exact ⟨_, hr, e, hb1, hp1, rfl, rfl⟩

/-- C7: each of the comparison opcodes `19 .. 24` writes into register `r` the
value `1` when its relation (`=`, `!=`, `<`, `<=`, `>`, `>=`) holds between
`RF[l]` and `RF[m]` and the value `0` otherwise, and never another value. -/
theorem comparison_writes_zero_or_one (v : VirtualMachine) (ins : Instruction) (ch : Channels)
    (a b : CInt)
    (hop : 19 ≤ ins.op.val ∧ ins.op.val ≤ 24)
    (hl : readAt v.RF ins.l = some a) (hm : readAt v.RF ins.m = some b)
    (hr : 0 ≤ ins.r.val ∧ ins.r.val < v.RF.length) :
    ∃ x : CInt,
      executeInstruction v ins ch
        = some ({ v with RF := v.RF.set ins.r.val.toNat x }, ch, Status.CONT)
      ∧ slotAt (v.RF.set ins.r.val.toNat x) ins.r.val = some x
      ∧ (x.val = 0 ∨ x.val = 1)
      ∧ (ins.op.val = 19 → (x.val = 1 ↔ a.val = b.val))
      ∧ (ins.op.val = 20 → (x.val = 1 ↔ a.val ≠ b.val))
      ∧ (ins.op.val = 21 → (x.val = 1 ↔ a.val < b.val))
      ∧ (ins.op.val = 22 → (x.val = 1 ↔ a.val ≤ b.val))
      ∧ (ins.op.val = 23 → (x.val = 1 ↔ a.val > b.val))
      ∧ (ins.op.val = 24 → (x.val = 1 ↔ a.val ≥ b.val)) := by
  have hcases : ins.op.val = 19 ∨ ins.op.val = 20 ∨ ins.op.val = 21 ∨ ins.op.val = 22
      ∨ ins.op.val = 23 ∨ ins.op.val = 24 := by omega
  have hslot : ∀ x : CInt, slotAt (v.RF.set ins.r.val.toNat x) ins.r.val = some x := by
    intro x
    rw [slotAt_set, if_pos]
    constructor
    · exact (Int.toNat_of_nonneg hr.1).symm
    · omega
  have hbool : ∀ c : Bool, ((CInt.ofBool c).val = 0 ∨ (CInt.ofBool c).val = 1)
      ∧ ((CInt.ofBool c).val = 1 ↔ c = true) := by
    intro c
    cases c <;> decide
  rcases hcases with h | h | h | h | h | h
  · refine ⟨CInt.ofBool (decide (a.val = b.val)), ?_, hslot _, (hbool _).1, ?_⟩
    · unfold executeInstruction
      simp only [h]
      simp only [bind, Option.bind, hl, hm, writeAt_of_bounds _ hr.1 hr.2]
    · simp [h, (hbool _).2]
  · refine ⟨CInt.ofBool (decide (a.val ≠ b.val)), ?_, hslot _, (hbool _).1, ?_⟩
    · unfold executeInstruction
      simp only [h]
      simp only [bind, Option.bind, hl, hm, writeAt_of_bounds _ hr.1 hr.2]
    · simp [h, (hbool _).2]
  · refine ⟨CInt.ofBool (decide (a.val < b.val)), ?_, hslot _, (hbool _).1, ?_⟩
    · unfold executeInstruction
      simp only [h]
      simp only [bind, Option.bind, hl, hm, writeAt_of_bounds _ hr.1 hr.2]
    · simp [h, (hbool _).2]
  · refine ⟨CInt.ofBool (decide (a.val ≤ b.val)), ?_, hslot _, (hbool _).1, ?_⟩
    · unfold executeInstruction
      simp only [h]
      simp only [bind, Option.bind, hl, hm, writeAt_of_bounds _ hr.1 hr.2]
    · simp [h, (hbool _).2]
  · refine ⟨CInt.ofBool (decide (a.val > b.val)), ?_, hslot _, (hbool _).1, ?_⟩
    · unfold executeInstruction
      simp only [h]
      simp only [bind, Option.bind, hl, hm, writeAt_of_bounds _ hr.1 hr.2]
    · simp [h, (hbool _).2]
  · refine ⟨CInt.ofBool (decide (a.val ≥ b.val)), ?_, hslot _, (hbool _).1, ?_⟩
    · unfold executeInstruction
      simp only [h]
      simp only [bind, Option.bind, hl, hm, writeAt_of_bounds _ hr.1 hr.2]
    · simp [h, (hbool _).2]

theorem getBasePointer_level_zero (stack : List CInt) (bp l : CInt) (hl : l.val = 0) :
    getBasePointer stack bp l = some bp := by
  simp only [getBasePointer, hl, Int.toNat_zero, getBasePointerLoop]

theorem CInt.offset_val (b m : CInt) (h0 : 0 ≤ b.val + m.val - 1)
    (h1 : b.val + m.val - 1 < 2147483648) :
    ((b.add m).sub (CInt.ofInt 1)).val = b.val + m.val - 1 := by
  simp only [CInt.add_val, CInt.sub_val, CInt.ofInt_val, wrap32]
  omega

/-- C4, as the code has it: a level-0 `LOD` reads, and a level-0 `STO` writes,
the stack slot `BP + M - 1`, in every machine state. -/
theorem level_zero_access_slot (v : VirtualMachine) (ins : Instruction) (ch : Channels)
    (hl : ins.l.val = 0)
    (hr : 0 ≤ ins.r.val ∧ ins.r.val < v.RF.length)
    (h0 : 0 ≤ v.BP.val + ins.m.val - 1) (h1 : v.BP.val + ins.m.val - 1 < v.stack.length)
    (hcap : v.stack.length ≤ 2147483648) :
    (ins.op.val = 3 → ∃ x, slotAt v.stack (v.BP.val + ins.m.val - 1) = some x
        ∧ executeInstruction v ins ch
            = some ({ v with RF := v.RF.set ins.r.val.toNat x }, ch, Status.CONT))
    ∧ (ins.op.val = 4 → ∃ x, slotAt v.RF ins.r.val = some x
        ∧ executeInstruction v ins ch
            = some ({ v with stack := v.stack.set (v.BP.val + ins.m.val - 1).toNat x },
                ch, Status.CONT)) := by
  have hidx := CInt.offset_val v.BP ins.m h0 (by omega)
  have hbase := getBasePointer_level_zero v.stack v.BP ins.l hl
  constructor
  · intro hop
    obtain ⟨x, hx⟩ := slotAt_of_bounds v.stack _ h0 h1
    refine ⟨x, hx, ?_⟩
    unfold executeInstruction
    simp only [hop]
    simp only [bind, Option.bind, hbase, readAt, hidx, hx, writeAt_of_bounds _ hr.1 hr.2]
  · intro hop
    obtain ⟨x, hx⟩ := slotAt_of_bounds v.RF _ hr.1 hr.2
    refine ⟨x, hx, ?_⟩
    have hw : writeAt v.stack ((v.BP.add ins.m).sub (CInt.ofInt 1)) x
        = some (v.stack.set (v.BP.val + ins.m.val - 1).toNat x) := by
      rw [writeAt_of_bounds x (by omega) (by omega), hidx]
    unfold executeInstruction
    simp only [hop]
    simp only [bind, Option.bind, hbase, readAt, hx, hw]

/-- C8: `JMP` sets `PC` to `m` in every state; `JPC` sets `PC` to `m` when
register `r` holds exactly `0` and leaves it otherwise; neither changes the
registers, the stack, `BP` or `SP`. -/
theorem jump_sets_pc (v : VirtualMachine) (ins : Instruction) (ch : Channels) :
    (ins.op.val = 7 →
      executeInstruction v ins ch = some ({ v with PC := ins.m }, ch, Status.CONT))
    ∧ (ins.op.val = 8 → ∀ x, readAt v.RF ins.r = some x →
        ∃ v1, executeInstruction v ins ch = some (v1, ch, Status.CONT)
          ∧ (x.val = 0 → v1.PC = ins.m) ∧ (x.val ≠ 0 → v1.PC = v.PC)
          ∧ v1.RF = v.RF ∧ v1.stack = v.stack ∧ v1.BP = v.BP ∧ v1.SP = v.SP) := by
  constructor
  · intro hop
    unfold executeInstruction
    simp only [hop]
  · intro hop x hx
    by_cases hz : x.val = 0
    · refine ⟨{ v with PC := ins.m }, ?_, fun _ => rfl, fun h => absurd hz h, rfl, rfl, rfl, rfl⟩
      unfold executeInstruction
      simp only [hop]
      simp only [bind, Option.bind, hx, hz, if_true]
    · refine ⟨v, ?_, fun h => absurd h hz, fun _ => rfl, rfl, rfl, rfl, rfl⟩
      unfold executeInstruction
      simp only [hop]
      simp only [bind, Option.bind, hx, hz, if_false]

/-- C10, as the code has it: `DIV` and `MOD` divide without a test of the
divisor, so with `RF[m] = 0` the step has no defined result: no status is
returned and no register is written. The statuses that `executeInstruction`
returns are `CONT` and `HALT` only, and `HALT` is returned alike for the halt
opcode and for an unrecognized opcode. -/
theorem div_mod_by_zero_undefined (v : VirtualMachine) (ins : Instruction) (ch : Channels)
    (hop : ins.op.val = 16 ∨ ins.op.val = 18)
    (b : CInt) (hm : readAt v.RF ins.m = some b) (hb : b.val = 0) :
    executeInstruction v ins ch = none
    ∧ (∀ halt bad : Instruction, halt.op.val = 11 → (bad.op.val < 1 ∨ 24 < bad.op.val) →
        (executeInstruction v halt ch).map (fun res => res.2.2) = some Status.HALT
        ∧ (executeInstruction v bad ch).map (fun res => res.2.2) = some Status.HALT) := by
  constructor
  · rcases hop with h | h
    all_goals
      unfold executeInstruction
      simp only [h]
      cases ha : readAt v.RF ins.l with
      | none => simp only [bind, Option.bind, ha]
      | some a => simp only [bind, Option.bind, ha, hm, hb, true_or, if_true]
  · intro halt bad hh hbad
    constructor
    · unfold executeInstruction
      simp only [hh]
      rfl
    · unfold executeInstruction
      split <;> first | omega | rfl

theorem Option.bind_sat {α β : Type} {o : Option α} {f : α → Option β} {P : β → Prop}
    (hf : ∀ a, ∀ r, f a = some r → P r) : ∀ r, o.bind f = some r → P r := by
  intro r h
  cases o with
  | none => cases h
  | some a => exact hf a r h

theorem exec_status_cont (v : VirtualMachine) (ins : Instruction) (ch : Channels)
    (hop : 1 ≤ ins.op.val ∧ ins.op.val ≤ 24) (h11 : ins.op.val ≠ 11) :
    ∀ res, executeInstruction v ins ch = some res → res.2.2 = Status.CONT := by
  unfold executeInstruction
  split
  all_goals first | omega | (exfalso; simp only [imp_false] at *; omega) | skip
  all_goals try simp only [bind]
  all_goals
    repeat' first
      | (intro r h; cases h; done)
      | (intro r h; cases h; rfl)
      | (refine Option.bind_sat ?_; intro _)
      | split

theorem exists_slotAt_eq_some (xs : List CInt) (i : CInt) :
    (∃ x, readAt xs i = some x) ↔ validIdx xs i := by
  rw [← Option.isSome_iff_exists]
  exact slotAt_isSome_iff

theorem exists_writeAt_eq_some (xs : List CInt) (i x : CInt) :
    (∃ ys, writeAt xs i x = some ys) ↔ validIdx xs i := by
  simp only [writeAt_eq_some_iff, validIdx]
  constructor
  · rintro ⟨_, h, _⟩; exact h
  · intro h; exact ⟨_, h, rfl⟩

theorem isSome_bind_iff {α β : Type} (o : Option α) (f : α → Option β) :
    (o.bind f).isSome ↔ ∃ a, o = some a ∧ (f a).isSome := by
  cases o <;> simp

theorem readAt_isSome_iff (xs : List CInt) (i : CInt) :
    (readAt xs i).isSome ↔ validIdx xs i := slotAt_isSome_iff

theorem writeAt_isSome_iff (xs : List CInt) (i x : CInt) :
    (writeAt xs i x).isSome ↔ validIdx xs i := by
  rw [Option.isSome_iff_exists]
  exact exists_writeAt_eq_some xs i x

theorem isSome_bind_const {α β : Type} (o : Option α) (f : α → Option β) (Q : Prop)
    (h : ∀ a, (f a).isSome ↔ Q) : (o.bind f).isSome ↔ o.isSome ∧ Q := by
  cases o with
  | none => simp
  | some a => simpa using h a

theorem exec_unrecognized (v : VirtualMachine) (ins : Instruction) (ch : Channels)
    (h : ins.op.val < 1 ∨ 24 < ins.op.val) :
    executeInstruction v ins ch
      = some (v, { ch with vmErr := ch.vmErr + 1 }, Status.HALT) := by
  unfold executeInstruction
  split <;> first | omega | rfl

theorem stepDefined_unrecognized (v : VirtualMachine) (ins : Instruction)
    (h : ins.op.val < 1 ∨ 24 < ins.op.val) : stepDefined v ins := by
  unfold stepDefined
  split <;> first | omega | trivial

theorem isSome_iff_op3 (v : VirtualMachine) (ins : Instruction) (ch : Channels)
    (h : ins.op.val = 3) :
    (executeInstruction v ins ch).isSome ↔ stepDefined v ins := by
  unfold executeInstruction stepDefined
  simp only [h]
  simp only [bind, isSome_bind_iff, Option.isSome_some, and_true, exists_writeAt_eq_some,
    exists_slotAt_eq_some, exists_and_right, exists_and_left, exists_const]
  constructor
  · rintro ⟨a, h1, h2, h3⟩; exact ⟨h3, a, h1, h2⟩
  · rintro ⟨h3, a, h1, h2⟩; exact ⟨a, h1, h2, h3⟩

theorem isSome_iff_op4 (v : VirtualMachine) (ins : Instruction) (ch : Channels)
    (h : ins.op.val = 4) :
    (executeInstruction v ins ch).isSome ↔ stepDefined v ins := by
  unfold executeInstruction stepDefined
  simp only [h]
  simp only [bind, isSome_bind_iff, Option.isSome_some, and_true, exists_writeAt_eq_some,
    exists_slotAt_eq_some, exists_and_right, exists_and_left, exists_const]
  constructor
  · rintro ⟨a, h1, h3, h2⟩; exact ⟨h3, a, h1, h2⟩
  · rintro ⟨h3, a, h1, h2⟩; exact ⟨a, h1, h3, h2⟩

theorem isSome_iff_op5 (v : VirtualMachine) (ins : Instruction) (ch : Channels)
    (h : ins.op.val = 5) :
    (executeInstruction v ins ch).isSome ↔ stepDefined v ins := by
  unfold stepDefined
  simp only [h]
  constructor
  · intro hs
    obtain ⟨res, hres⟩ := Option.isSome_iff_exists.mp hs
    obtain ⟨base, h0, h3, h31, hb, -⟩ := exec_cal_eq_some v ins ch h res hres
    exact ⟨h0, h3, h31, by rw [hb]; rfl⟩
  · rintro ⟨h0, h3, h31, hb⟩
    obtain ⟨base, hb⟩ := Option.isSome_iff_exists.mp hb
    rw [exec_cal_of_bounds v ins ch h base h0 h3 (Or.inl h31) hb]
    rfl

theorem isSome_iff_op8 (v : VirtualMachine) (ins : Instruction) (ch : Channels)
    (h : ins.op.val = 8) :
    (executeInstruction v ins ch).isSome ↔ stepDefined v ins := by
  unfold executeInstruction stepDefined
  simp only [h, bind]
  rw [← readAt_isSome_iff]
  cases readAt v.RF ins.r with
  | none => rfl
  | some a =>
    simp only [Option.bind, (readAt_isSome_iff _ _).symm]
    split <;> simp

theorem isSome_iff_op10 (v : VirtualMachine) (ins : Instruction) (ch : Channels)
    (h : ins.op.val = 10) :
    (executeInstruction v ins ch).isSome ↔ stepDefined v ins := by
  unfold executeInstruction stepDefined
  simp only [h, bind]
  cases hr : readAt v.RF ins.r with
  | none =>
    simp only [Option.bind, ← readAt_isSome_iff, hr]
    exact Iff.rfl
  | some a =>
    have hv : validIdx v.RF ins.r := (readAt_isSome_iff _ _).mp (by rw [hr]; rfl)
    simp only [Option.bind, hv, iff_true]
    split
    · rfl
    · rw [writeAt_of_bounds _ hv.1 hv.2]; rfl

theorem isSome_iff_op16 (v : VirtualMachine) (ins : Instruction) (ch : Channels)
    (h : ins.op.val = 16) :
    (executeInstruction v ins ch).isSome ↔ stepDefined v ins := by
  unfold executeInstruction stepDefined
  simp only [h, bind]
  constructor
  · intro hs
    cases ha : readAt v.RF ins.l with
    | none => simp [ha] at hs
    | some a =>
      cases hb : readAt v.RF ins.m with
      | none => simp [ha, hb] at hs
      | some b =>
        simp only [ha, hb, Option.some_bind] at hs
        split at hs
        · simp at hs
        · rename_i hc
          rw [isSome_bind_iff] at hs
          obtain ⟨RF, hw, -⟩ := hs
          exact ⟨(exists_writeAt_eq_some _ _ _).mp ⟨RF, hw⟩, a, b, rfl, rfl, by omega, by omega⟩
  · rintro ⟨hv, a, b, ha, hb, h1, h2⟩
    simp only [ha, hb, Option.some_bind]
    rw [if_neg (by omega), writeAt_of_bounds _ hv.1 hv.2]
    rfl

theorem isSome_iff_op18 (v : VirtualMachine) (ins : Instruction) (ch : Channels)
    (h : ins.op.val = 18) :
    (executeInstruction v ins ch).isSome ↔ stepDefined v ins := by
  unfold executeInstruction stepDefined
  simp only [h, bind]
  constructor
  · intro hs
    cases ha : readAt v.RF ins.l with
    | none => simp [ha] at hs
    | some a =>
      cases hb : readAt v.RF ins.m with
      | none => simp [ha, hb] at hs
      | some b =>
        simp only [ha, hb, Option.some_bind] at hs
        split at hs
        · simp at hs
        · rename_i hc
          rw [isSome_bind_iff] at hs
          obtain ⟨RF, hw, -⟩ := hs
          exact ⟨(exists_writeAt_eq_some _ _ _).mp ⟨RF, hw⟩, a, b, rfl, rfl, by omega, by omega⟩
  · rintro ⟨hv, a, b, ha, hb, h1, h2⟩
    simp only [ha, hb, Option.some_bind]
    rw [if_neg (by omega), writeAt_of_bounds _ hv.1 hv.2]
    rfl

theorem isSome_iff_op1 (v : VirtualMachine) (ins : Instruction) (ch : Channels)
    (h : ins.op.val = 1) :
    (executeInstruction v ins ch).isSome ↔ stepDefined v ins := by
  unfold executeInstruction stepDefined
  simp only [h]
  simp only [bind, isSome_bind_iff, Option.isSome_some, and_true, exists_writeAt_eq_some,
    exists_slotAt_eq_some, exists_and_right, exists_and_left, exists_const]

theorem isSome_iff_op2 (v : VirtualMachine) (ins : Instruction) (ch : Channels)
    (h : ins.op.val = 2) :
    (executeInstruction v ins ch).isSome ↔ stepDefined v ins := by
  unfold executeInstruction stepDefined
  simp only [h]
  simp only [bind, isSome_bind_iff, Option.isSome_some, and_true, exists_writeAt_eq_some,
    exists_slotAt_eq_some, exists_and_right, exists_and_left, exists_const]

theorem isSome_iff_op6 (v : VirtualMachine) (ins : Instruction) (ch : Channels)
    (h : ins.op.val = 6) :
    (executeInstruction v ins ch).isSome ↔ stepDefined v ins := by
  unfold executeInstruction stepDefined
  simp only [h]
  simp only [bind, isSome_bind_iff, Option.isSome_some, and_true, exists_writeAt_eq_some,
    exists_slotAt_eq_some, exists_and_right, exists_and_left, exists_const]

theorem isSome_iff_op7 (v : VirtualMachine) (ins : Instruction) (ch : Channels)
    (h : ins.op.val = 7) :
    (executeInstruction v ins ch).isSome ↔ stepDefined v ins := by
  unfold executeInstruction stepDefined
  simp only [h]
  simp only [bind, isSome_bind_iff, Option.isSome_some, and_true, exists_writeAt_eq_some,
    exists_slotAt_eq_some, exists_and_right, exists_and_left, exists_const]

theorem isSome_iff_op9 (v : VirtualMachine) (ins : Instruction) (ch : Channels)
    (h : ins.op.val = 9) :
    (executeInstruction v ins ch).isSome ↔ stepDefined v ins := by
  unfold executeInstruction stepDefined
  simp only [h]
  simp only [bind, isSome_bind_iff, Option.isSome_some, and_true, exists_writeAt_eq_some,
    exists_slotAt_eq_some, exists_and_right, exists_and_left, exists_const]

theorem isSome_iff_op11 (v : VirtualMachine) (ins : Instruction) (ch : Channels)
    (h : ins.op.val = 11) :
    (executeInstruction v ins ch).isSome ↔ stepDefined v ins := by
  unfold executeInstruction stepDefined
  simp only [h]
  simp only [bind, isSome_bind_iff, Option.isSome_some, and_true, exists_writeAt_eq_some,
    exists_slotAt_eq_some, exists_and_right, exists_and_left, exists_const]

theorem isSome_iff_op12 (v : VirtualMachine) (ins : Instruction) (ch : Channels)
    (h : ins.op.val = 12) :
    (executeInstruction v ins ch).isSome ↔ stepDefined v ins := by
  unfold executeInstruction stepDefined
  simp only [h]
  simp only [bind, isSome_bind_iff, Option.isSome_some, and_true, exists_writeAt_eq_some,
    exists_slotAt_eq_some, exists_and_right, exists_and_left, exists_const]

theorem isSome_iff_op13 (v : VirtualMachine) (ins : Instruction) (ch : Channels)
    (h : ins.op.val = 13) :
    (executeInstruction v ins ch).isSome ↔ stepDefined v ins := by
  unfold executeInstruction stepDefined
  simp only [h]
  simp only [bind, isSome_bind_iff, Option.isSome_some, and_true, exists_writeAt_eq_some,
    exists_slotAt_eq_some, exists_and_right, exists_and_left, exists_const]

theorem isSome_iff_op14 (v : VirtualMachine) (ins : Instruction) (ch : Channels)
    (h : ins.op.val = 14) :
    (executeInstruction v ins ch).isSome ↔ stepDefined v ins := by
  unfold executeInstruction stepDefined
  simp only [h]
  simp only [bind, isSome_bind_iff, Option.isSome_some, and_true, exists_writeAt_eq_some,
    exists_slotAt_eq_some, exists_and_right, exists_and_left, exists_const]

theorem isSome_iff_op15 (v : VirtualMachine) (ins : Instruction) (ch : Channels)
    (h : ins.op.val = 15) :
    (executeInstruction v ins ch).isSome ↔ stepDefined v ins := by
  unfold executeInstruction stepDefined
  simp only [h]
  simp only [bind, isSome_bind_iff, Option.isSome_some, and_true, exists_writeAt_eq_some,
    exists_slotAt_eq_some, exists_and_right, exists_and_left, exists_const]

theorem isSome_iff_op17 (v : VirtualMachine) (ins : Instruction) (ch : Channels)
    (h : ins.op.val = 17) :
    (executeInstruction v ins ch).isSome ↔ stepDefined v ins := by
  unfold executeInstruction stepDefined
  simp only [h]
  simp only [bind, isSome_bind_iff, Option.isSome_some, and_true, exists_writeAt_eq_some,
    exists_slotAt_eq_some, exists_and_right, exists_and_left, exists_const]
  simp

theorem isSome_iff_op19 (v : VirtualMachine) (ins : Instruction) (ch : Channels)
    (h : ins.op.val = 19) :
    (executeInstruction v ins ch).isSome ↔ stepDefined v ins := by
  unfold executeInstruction stepDefined
  simp only [h]
  simp only [bind, isSome_bind_iff, Option.isSome_some, and_true, exists_writeAt_eq_some,
    exists_slotAt_eq_some, exists_and_right, exists_and_left, exists_const]

theorem isSome_iff_op20 (v : VirtualMachine) (ins : Instruction) (ch : Channels)
    (h : ins.op.val = 20) :
    (executeInstruction v ins ch).isSome ↔ stepDefined v ins := by
  unfold executeInstruction stepDefined
  simp only [h]
  simp only [bind, isSome_bind_iff, Option.isSome_some, and_true, exists_writeAt_eq_some,
    exists_slotAt_eq_some, exists_and_right, exists_and_left, exists_const]

theorem isSome_iff_op21 (v : VirtualMachine) (ins : Instruction) (ch : Channels)
    (h : ins.op.val = 21) :
    (executeInstruction v ins ch).isSome ↔ stepDefined v ins := by
  unfold executeInstruction stepDefined
  simp only [h]
  simp only [bind, isSome_bind_iff, Option.isSome_some, and_true, exists_writeAt_eq_some,
    exists_slotAt_eq_some, exists_and_right, exists_and_left, exists_const]

theorem isSome_iff_op22 (v : VirtualMachine) (ins : Instruction) (ch : Channels)
    (h : ins.op.val = 22) :
    (executeInstruction v ins ch).isSome ↔ stepDefined v ins := by
  unfold executeInstruction stepDefined
  simp only [h]
  simp only [bind, isSome_bind_iff, Option.isSome_some, and_true, exists_writeAt_eq_some,
    exists_slotAt_eq_some, exists_and_right, exists_and_left, exists_const]

theorem isSome_iff_op23 (v : VirtualMachine) (ins : Instruction) (ch : Channels)
    (h : ins.op.val = 23) :
    (executeInstruction v ins ch).isSome ↔ stepDefined v ins := by
  unfold executeInstruction stepDefined
  simp only [h]
  simp only [bind, isSome_bind_iff, Option.isSome_some, and_true, exists_writeAt_eq_some,
    exists_slotAt_eq_some, exists_and_right, exists_and_left, exists_const]

theorem isSome_iff_op24 (v : VirtualMachine) (ins : Instruction) (ch : Channels)
    (h : ins.op.val = 24) :
    (executeInstruction v ins ch).isSome ↔ stepDefined v ins := by
  unfold executeInstruction stepDefined
  simp only [h]
  simp only [bind, isSome_bind_iff, Option.isSome_some, and_true, exists_writeAt_eq_some,
    exists_slotAt_eq_some, exists_and_right, exists_and_left, exists_const]

/-- The embedding returns a result exactly on the states and instructions of
`stepDefined`. -/
theorem executeInstruction_isSome_iff (v : VirtualMachine) (ins : Instruction) (ch : Channels) :
    (executeInstruction v ins ch).isSome ↔ stepDefined v ins := by
  have hcases : ins.op.val = 1 ∨ ins.op.val = 2 ∨ ins.op.val = 3 ∨ ins.op.val = 4
      ∨ ins.op.val = 5 ∨ ins.op.val = 6 ∨ ins.op.val = 7 ∨ ins.op.val = 8 ∨ ins.op.val = 9
      ∨ ins.op.val = 10 ∨ ins.op.val = 11 ∨ ins.op.val = 12 ∨ ins.op.val = 13
      ∨ ins.op.val = 14 ∨ ins.op.val = 15 ∨ ins.op.val = 16 ∨ ins.op.val = 17
      ∨ ins.op.val = 18 ∨ ins.op.val = 19 ∨ ins.op.val = 20 ∨ ins.op.val = 21
      ∨ ins.op.val = 22 ∨ ins.op.val = 23 ∨ ins.op.val = 24
      ∨ (ins.op.val < 1 ∨ 24 < ins.op.val) := by omega
  rcases hcases with h | h | h | h | h | h | h | h | h | h | h | h | h | h | h | h | h | h
    | h | h | h | h | h | h | h
  · exact isSome_iff_op1 v ins ch h
  · exact isSome_iff_op2 v ins ch h
  · exact isSome_iff_op3 v ins ch h
  · exact isSome_iff_op4 v ins ch h
  · exact isSome_iff_op5 v ins ch h
  · exact isSome_iff_op6 v ins ch h
  · exact isSome_iff_op7 v ins ch h
  · exact isSome_iff_op8 v ins ch h
  · exact isSome_iff_op9 v ins ch h
  · exact isSome_iff_op10 v ins ch h
  · exact isSome_iff_op11 v ins ch h
  · exact isSome_iff_op12 v ins ch h
  · exact isSome_iff_op13 v ins ch h
  · exact isSome_iff_op14 v ins ch h
  · exact isSome_iff_op15 v ins ch h
  · exact isSome_iff_op16 v ins ch h
  · exact isSome_iff_op17 v ins ch h
  · exact isSome_iff_op18 v ins ch h
  · exact isSome_iff_op19 v ins ch h
  · exact isSome_iff_op20 v ins ch h
  · exact isSome_iff_op21 v ins ch h
  · exact isSome_iff_op22 v ins ch h
  · exact isSome_iff_op23 v ins ch h
  · exact isSome_iff_op24 v ins ch h
  · simp only [exec_unrecognized v ins ch h, Option.isSome_some,
      stepDefined_unrecognized v ins h]

theorem exec_halt (v : VirtualMachine) (ins : Instruction) (ch : Channels)
    (h : ins.op.val = 11) :
    executeInstruction v ins ch = some (v, ch, Status.HALT) := by
  unfold executeInstruction
  simp only [h]

/-- C9, as the code has it: `executeInstruction` returns `HALT` exactly for the
halt opcode 11 and for the opcodes outside `1..24`, and then the machine is the
one it was given; for every other opcode it returns `CONT` on every state and
instruction on which C defines the step, and has no result on the others. -/
theorem halt_iff_halt_or_unrecognized (v : VirtualMachine) (ins : Instruction) (ch : Channels) :
    ((∃ v1 ch1, executeInstruction v ins ch = some (v1, ch1, Status.HALT))
        ↔ (ins.op.val = 11 ∨ ins.op.val < 1 ∨ 24 < ins.op.val))
    ∧ ((ins.op.val = 11 ∨ ins.op.val < 1 ∨ 24 < ins.op.val) →
        ∃ ch1, executeInstruction v ins ch = some (v, ch1, Status.HALT))
    ∧ (¬ (ins.op.val = 11 ∨ ins.op.val < 1 ∨ 24 < ins.op.val) → stepDefined v ins →
        ∃ v1 ch1, executeInstruction v ins ch = some (v1, ch1, Status.CONT))
    ∧ (¬ (ins.op.val = 11 ∨ ins.op.val < 1 ∨ 24 < ins.op.val) → ¬ stepDefined v ins →
        executeInstruction v ins ch = none) := by
  have hhalt : (ins.op.val = 11 ∨ ins.op.val < 1 ∨ 24 < ins.op.val) →
      ∃ ch1, executeInstruction v ins ch = some (v, ch1, Status.HALT) := by
    rintro (h | h)
    · exact ⟨ch, exec_halt v ins ch h⟩
    · exact ⟨_, exec_unrecognized v ins ch h⟩
  refine ⟨⟨?_, ?_⟩, hhalt, ?_, ?_⟩
  · rintro ⟨v1, ch1, h⟩
    by_contra hn
    have hc := exec_status_cont v ins ch (by omega) (by omega) _ h
    cases hc
  · intro h
    obtain ⟨ch1, h1⟩ := hhalt h
    exact ⟨v, ch1, h1⟩
  · intro hn hd
    obtain ⟨⟨v1, ch1, st⟩, hres⟩ :=
      Option.isSome_iff_exists.mp ((executeInstruction_isSome_iff v ins ch).mpr hd)
    have hc := exec_status_cont v ins ch (by omega) (by omega) _ hres
    simp only at hc
    subst hc
    exact ⟨v1, ch1, hres⟩
  · intro _ hd
    cases hres : executeInstruction v ins ch with
    | none => rfl
    | some res =>
      exact absurd ((executeInstruction_isSome_iff v ins ch).mp (by rw [hres]; rfl)) hd

/-! ## The loop of `simulateVM` on expression programs -/

theorem readAt_eq_getD {xs : List CInt} {i : CInt} (h : validIdx xs i) (d : CInt) :
    readAt xs i = some (xs.getD i.val.toNat d) := by
  have hlt : i.val.toNat < xs.length := by have := h.1; have := h.2; omega
  simp only [readAt, slotAt, h.1, if_true, List.getD_eq_getElem?_getD,
    List.getElem?_eq_getElem hlt, Option.getD_some]

theorem ofInt_regValue {xs : List CInt} (i : CInt) :
    CInt.ofInt (regValue xs i) = xs.getD i.val.toNat (CInt.ofInt 0) :=
  CInt.ofInt_self _

theorem evalDirect_length (st : List CInt × List CInt) (ins : Instruction) :
    (evalDirect st ins).1.length = st.1.length := by
  unfold evalDirect
  split <;> simp

/-- On an instruction of an expression program `executeInstruction` does what
direct evaluation does, and changes nothing but the registers and the output. -/
theorem exec_straightLine (v : VirtualMachine) (ins : Instruction) (ch : Channels)
    (h : straightLine v.RF.length ins) :
    executeInstruction v ins ch
      = some ({ v with RF := (evalDirect (v.RF, ch.vmOut) ins).1 },
              { ch with vmOut := (evalDirect (v.RF, ch.vmOut) ins).2 }, Status.CONT) := by
  obtain ⟨hr, hop⟩ := h
  have hneg : (CInt.ofInt (-1)).val = -1 := by decide
  rcases hop with h1 | h9 | ⟨h12, hl⟩ | ⟨h13 | h14 | h15, hl, hm⟩
  · unfold executeInstruction evalDirect
    simp only [h1, bind, writeAt_of_bounds _ hr.1 hr.2, Option.some_bind]
  · unfold executeInstruction evalDirect
    simp only [h9, bind, readAt_eq_getD hr (CInt.ofInt 0), Option.some_bind, ofInt_regValue]
  · unfold executeInstruction evalDirect
    simp only [h12, bind, readAt_eq_getD hl (CInt.ofInt 0), Option.some_bind,
      writeAt_of_bounds _ hr.1 hr.2, CInt.mul, hneg, regValue, neg_one_mul]
  · unfold executeInstruction evalDirect
    simp only [h13, bind, readAt_eq_getD hl (CInt.ofInt 0), readAt_eq_getD hm (CInt.ofInt 0),
      Option.some_bind, writeAt_of_bounds _ hr.1 hr.2, CInt.add, regValue]
  · unfold executeInstruction evalDirect
    simp only [h14, bind, readAt_eq_getD hl (CInt.ofInt 0), readAt_eq_getD hm (CInt.ofInt 0),
      Option.some_bind, writeAt_of_bounds _ hr.1 hr.2, CInt.sub, regValue]
  · unfold executeInstruction evalDirect
    simp only [h15, bind, readAt_eq_getD hl (CInt.ofInt 0), readAt_eq_getD hm (CInt.ofInt 0),
      Option.some_bind, writeAt_of_bounds _ hr.1 hr.2, CInt.mul, regValue]

theorem updateAR_other (vm : VirtualMachine) (oldSP m : CInt) (AR : List CInt)
    (currentAR flag : CInt)
    (h2 : vm.IR.val ≠ 2) (h5 : vm.IR.val ≠ 5) (h6 : vm.IR.val ≠ 6) :
    updateAR vm oldSP m AR currentAR flag = some (vm, AR, currentAR, flag) := by
  unfold updateAR
  rw [if_neg h2, if_neg (fun h => h5 h.1), if_neg h6]

theorem printCells_of_zero (AR stack : List CInt) (fuel : Nat) (j arIndex : CInt)
    (h : readAt AR (CInt.ofInt 0) = some (CInt.ofInt 0)) :
    printCells AR stack (fuel + 1) j (CInt.ofInt 0) arIndex = some [] := by
  have hz : (CInt.ofInt 0).val = 0 := by decide
  simp only [printCells, h, hz, if_true]

theorem opcodeName_of_range (op : CInt) (h : 0 ≤ op.val ∧ op.val ≤ 24) :
    ∃ name, opcodeName op = some name := by
  have hlt : op.val.toNat < opcodes.length := by
    have : opcodes.length = 25 := by decide
    omega
  exact ⟨opcodes[op.val.toNat], by
    simp only [opcodeName, h.1, if_true, List.getElem?_eq_getElem hlt]⟩

/-- One iteration of the loop on an instruction of an expression program. -/
theorem simStep_straightLine (code : List Instruction) (s : Sim) (ins : Instruction)
    (hf : fetch code s.vm.PC = some ins)
    (hs : straightLine s.vm.RF.length ins)
    (hAR : readAt s.AR (CInt.ofInt 0) = some (CInt.ofInt 0)) :
    ∃ name, simStep code s
      = some ({ vm := { s.vm with IR := ins.op, PC := s.vm.PC.add (CInt.ofInt 1),
                                  RF := (evalDirect (s.vm.RF, s.ch.vmOut) ins).1 },
                ch := { s.ch with vmOut := (evalDirect (s.vm.RF, s.ch.vmOut) ins).2 },
                AR := s.AR, currentAR := s.currentAR, flag := s.flag,
                trace := s.trace ++
                  [{ i := s.vm.PC, opname := name, r := ins.r, l := ins.l, m := ins.m,
                     PC := s.vm.PC.add (CInt.ofInt 1), BP := s.vm.BP, SP := s.vm.SP,
                     cells := [] }] }, Status.CONT) := by
  have hop : 0 ≤ ins.op.val ∧ ins.op.val ≤ 24 := by
    obtain ⟨-, h | h | ⟨h, -⟩ | ⟨h | h | h, -⟩⟩ := hs <;> omega
  have hne : ins.op.val ≠ 2 ∧ ins.op.val ≠ 5 ∧ ins.op.val ≠ 6 := by
    obtain ⟨-, h | h | ⟨h, -⟩ | ⟨h | h | h, -⟩⟩ := hs <;> omega
  obtain ⟨name, hname⟩ := opcodeName_of_range ins.op hop
  refine ⟨name, ?_⟩
  have hexec := exec_straightLine
    (VirtualMachine.mk s.vm.BP s.vm.SP (s.vm.PC.add (CInt.ofInt 1)) ins.op s.vm.RF s.vm.stack)
    ins s.ch hs
  simp only at hexec
  have hupd := updateAR_other
    (VirtualMachine.mk s.vm.BP s.vm.SP (s.vm.PC.add (CInt.ofInt 1)) ins.op
      (evalDirect (s.vm.RF, s.ch.vmOut) ins).1 s.vm.stack)
    s.vm.SP ins.m s.AR s.currentAR s.flag hne.1 hne.2.1 hne.2.2
  unfold simStep
  simp only [hf, bind, Option.some_bind, hexec, hupd, hname,
    printCells_of_zero _ _ _ _ _ hAR]

/-- The iteration of the loop on the halt instruction. -/
theorem simStep_halt (code : List Instruction) (s : Sim) (ins : Instruction)
    (hf : fetch code s.vm.PC = some ins)
    (hop : ins.op.val = 11)
    (hAR : readAt s.AR (CInt.ofInt 0) = some (CInt.ofInt 0)) :
    ∃ name, simStep code s
      = some ({ vm := { s.vm with IR := ins.op, PC := s.vm.PC.add (CInt.ofInt 1) },
                ch := s.ch, AR := s.AR, currentAR := s.currentAR, flag := s.flag,
                trace := s.trace ++
                  [{ i := s.vm.PC, opname := name, r := ins.r, l := ins.l, m := ins.m,
                     PC := s.vm.PC.add (CInt.ofInt 1), BP := s.vm.BP, SP := s.vm.SP,
                     cells := [] }] }, Status.HALT) := by
  obtain ⟨name, hname⟩ := opcodeName_of_range ins.op (by omega)
  refine ⟨name, ?_⟩
  have hexec := exec_halt
    (VirtualMachine.mk s.vm.BP s.vm.SP (s.vm.PC.add (CInt.ofInt 1)) ins.op s.vm.RF s.vm.stack)
    ins s.ch hop
  have hupd := updateAR_other
    (VirtualMachine.mk s.vm.BP s.vm.SP (s.vm.PC.add (CInt.ofInt 1)) ins.op s.vm.RF s.vm.stack)
    s.vm.SP ins.m s.AR s.currentAR s.flag
    (show ins.op.val ≠ 2 by omega) (show ins.op.val ≠ 5 by omega) (show ins.op.val ≠ 6 by omega)
  unfold simStep
  simp only [hf, bind, Option.some_bind, hexec, hupd, hname,
    printCells_of_zero _ _ _ _ _ hAR]

theorem fetch_at (pre tl : List Instruction) (x : Instruction) (pc : CInt)
    (h : pc.val = pre.length) : fetch (pre ++ x :: tl) pc = some x := by
  have h0 : 0 ≤ pc.val := by omega
  have ht : pc.val.toNat = pre.length := by omega
  simp only [fetch, h0, if_true, ht, List.getElem?_append_right (Nat.le_refl _),
    Nat.sub_self, List.getElem?_cons_zero]

theorem simStep_straightLine_fields (code : List Instruction) (s : Sim) (ins : Instruction)
    (hf : fetch code s.vm.PC = some ins)
    (hs : straightLine s.vm.RF.length ins)
    (hAR : readAt s.AR (CInt.ofInt 0) = some (CInt.ofInt 0)) :
    ∃ s1, simStep code s = some (s1, Status.CONT)
      ∧ s1.vm.RF = (evalDirect (s.vm.RF, s.ch.vmOut) ins).1
      ∧ s1.ch.vmOut = (evalDirect (s.vm.RF, s.ch.vmOut) ins).2
      ∧ s1.vm.PC = s.vm.PC.add (CInt.ofInt 1)
      ∧ s1.vm.IR = ins.op
      ∧ s1.vm.stack = s.vm.stack ∧ s1.vm.BP = s.vm.BP ∧ s1.vm.SP = s.vm.SP
      ∧ s1.ch.vmIn = s.ch.vmIn ∧ s1.ch.vmErr = s.ch.vmErr
      ∧ s1.AR = s.AR ∧ s1.currentAR = s.currentAR ∧ s1.flag = s.flag
      ∧ s1.trace.map (fun t => t.i.val) = s.trace.map (fun t => t.i.val) ++ [s.vm.PC.val] := by
  obtain ⟨name, hstep⟩ := simStep_straightLine code s ins hf hs hAR
  exact ⟨_, hstep, rfl, rfl, rfl, rfl, rfl, rfl, rfl, rfl, rfl, rfl, rfl, rfl, by simp⟩

theorem simStep_halt_fields (code : List Instruction) (s : Sim) (ins : Instruction)
    (hf : fetch code s.vm.PC = some ins)
    (hop : ins.op.val = 11)
    (hAR : readAt s.AR (CInt.ofInt 0) = some (CInt.ofInt 0)) :
    ∃ s1, simStep code s = some (s1, Status.HALT)
      ∧ s1.vm.RF = s.vm.RF
      ∧ s1.ch = s.ch
      ∧ s1.vm.PC = s.vm.PC.add (CInt.ofInt 1)
      ∧ s1.vm.IR = ins.op
      ∧ s1.vm.stack = s.vm.stack ∧ s1.vm.BP = s.vm.BP ∧ s1.vm.SP = s.vm.SP
      ∧ s1.AR = s.AR ∧ s1.currentAR = s.currentAR ∧ s1.flag = s.flag
      ∧ s1.trace.map (fun t => t.i.val) = s.trace.map (fun t => t.i.val) ++ [s.vm.PC.val] := by
  obtain ⟨name, hstep⟩ := simStep_halt code s ins hf hop hAR
  exact ⟨_, hstep, rfl, rfl, rfl, rfl, rfl, rfl, rfl, rfl, rfl, rfl, by simp⟩

/-- The loop of `simulateVM` on the rest of an expression program that ends in
the halt instruction: it leaves the loop after one iteration per instruction,
with the registers and the output of direct evaluation. -/
theorem runLoop_straightLine (code : List Instruction) (halt : Instruction)
    (hhalt : halt.op.val = 11) (hlen : code.length < 2147483648) :
    ∀ (rest pre : List Instruction) (s : Sim) (fuel : Nat),
      code = pre ++ (rest ++ [halt]) →
      s.vm.PC.val = pre.length →
      (∀ ins ∈ rest, straightLine s.vm.RF.length ins) →
      readAt s.AR (CInt.ofInt 0) = some (CInt.ofInt 0) →
      rest.length + 1 ≤ fuel →
      ∃ s1, runLoop code fuel s = Outcome.halted s1
        ∧ s1.vm.RF = (directEval rest (s.vm.RF, s.ch.vmOut)).1
        ∧ s1.ch.vmOut = (directEval rest (s.vm.RF, s.ch.vmOut)).2
        ∧ s1.trace.map (fun t => t.i.val)
            = s.trace.map (fun t => t.i.val)
              ++ (List.range' pre.length (rest.length + 1)).map (fun (k : Nat) => Int.ofNat k)
        ∧ s1.vm.PC.val = code.length
        ∧ s1.vm.IR = halt.op
        ∧ s1.vm.stack = s.vm.stack ∧ s1.vm.BP = s.vm.BP ∧ s1.vm.SP = s.vm.SP
        ∧ s1.ch.vmIn = s.ch.vmIn ∧ s1.ch.vmErr = s.ch.vmErr := by
  intro rest
  induction rest with
  | nil =>
    intro pre s fuel hcode hpc _ hAR hfuel
    obtain ⟨f, rfl⟩ : ∃ f, fuel = f + 1 := ⟨fuel - 1, by simp at hfuel; omega⟩
    have hf : fetch code s.vm.PC = some halt := by
      rw [hcode]; exact fetch_at pre [] halt s.vm.PC hpc
    obtain ⟨s1, hstep, hRF, hch, hPC, hIR, hst, hBP, hSP, -, -, -, htr⟩ :=
      simStep_halt_fields code s halt hf hhalt hAR
    have hl : code.length = pre.length + 1 := by rw [hcode]; simp
    have hpc1 := CInt.add_exact s.vm.PC 1 (by omega) (by omega) (by omega)
    have hrun : runLoop code (f + 1) s = Outcome.halted s1 := by
      simp only [runLoop, hstep]
    refine ⟨s1, hrun, hRF, by rw [hch]; rfl, ?_, ?_, hIR, hst, hBP, hSP, by rw [hch], by rw [hch]⟩
    · rw [htr, hpc]; rfl
    · rw [hPC, hpc1, hl, hpc]; push_cast; rfl
  | cons ins rest ih =>
    intro pre s fuel hcode hpc hs hAR hfuel
    obtain ⟨f, rfl⟩ : ∃ f, fuel = f + 1 := ⟨fuel - 1, by simp at hfuel; omega⟩
    have hf : fetch code s.vm.PC = some ins := by
      rw [hcode]; exact fetch_at pre (rest ++ [halt]) ins s.vm.PC hpc
    obtain ⟨s1, hstep, hRF1, hout1, hPC1, -, hst1, hBP1, hSP1, hin1, herr1, hAR1, -, -, htr1⟩ :=
      simStep_straightLine_fields code s ins hf (hs ins (List.mem_cons_self _ _)) hAR
    have hl : code.length = pre.length + (rest.length + 2) := by rw [hcode]; simp
    have hpc1 := CInt.add_exact s.vm.PC 1 (by omega) (by omega) (by omega)
    obtain ⟨s2, hrun, hRF, hout, htr, hPC, hIR, hst, hBP, hSP, hin, herr⟩ :=
      ih (pre ++ [ins]) s1 f
        (by rw [hcode]; simp)
        (by rw [hPC1, hpc1, hpc]; simp)
        (by
          intro i hi
          rw [hRF1, evalDirect_length]
          exact hs i (List.mem_cons_of_mem _ hi))
        (by rw [hAR1]; exact hAR) (by simp at hfuel ⊢; omega)
    have hrun2 : runLoop code (f + 1) s = Outcome.halted s2 := by
      simp only [runLoop, hstep]; exact hrun
    refine ⟨s2, hrun2, ?_, ?_, ?_, hPC, hIR, by rw [hst, hst1], by rw [hBP, hBP1],
      by rw [hSP, hSP1], by rw [hin, hin1], by rw [herr, herr1]⟩
    · rw [hRF, hRF1, hout1]; rfl
    · rw [hout, hRF1, hout1]; rfl
    · rw [htr, htr1, hpc]
      simp only [List.length_append, List.length_singleton, List.length_cons,
        List.append_assoc, List.singleton_append]
      rw [List.range'_succ]
      rfl

theorem opcodeName_straightLine (n : Nat) (ins : Instruction) (h : straightLine n ins) :
    (opcodeName ins.op).isSome = true := by
  have hop : 0 ≤ ins.op.val ∧ ins.op.val ≤ 24 := by
    obtain ⟨-, h | h | ⟨h, -⟩ | ⟨h | h | h, -⟩⟩ := h <;> omega
  obtain ⟨name, hname⟩ := opcodeName_of_range ins.op hop
  rw [hname]; rfl

/-- C6: on a program of immediate loads, arithmetic and outputs with valid
register indices, ended by the halt instruction, the loop of `simulateVM`
started from the initial state leaves the loop at the halt instruction after
executing every instruction once, in order (the trace lists the indices
`0, 1, ..., n`), and the final registers and the output are those of direct
evaluation of the program. -/
theorem expression_program_evaluates (regCount stackHeight MAX_CODE_LENGTH : Nat)
    (prog : List Instruction) (halt : Instruction) (vmIn : List CInt) (fuel : Nat)
    (hprog : ∀ ins ∈ prog, straightLine regCount ins) (hhalt : halt.op.val = 11)
    (hmax : prog.length + 1 ≤ MAX_CODE_LENGTH) (hint : prog.length + 1 < 2147483648)
    (hfuel : prog.length + 1 ≤ fuel) :
    ∃ s, simulateVM regCount stackHeight MAX_CODE_LENGTH (prog ++ [halt]) vmIn fuel
          = Outcome.halted s
      ∧ s.vm.RF = (directEval prog (List.replicate regCount (CInt.ofInt 0), [])).1
      ∧ s.ch.vmOut = (directEval prog (List.replicate regCount (CInt.ofInt 0), [])).2
      ∧ s.trace.map (fun t => t.i.val)
          = (List.range (prog.length + 1)).map (fun (k : Nat) => Int.ofNat k)
      ∧ s.vm.PC.val = prog.length + 1
      ∧ s.vm.IR = halt.op := by
  have hcond : (prog ++ [halt]).length ≤ MAX_CODE_LENGTH
      ∧ ∀ ins ∈ prog ++ [halt], (opcodeName ins.op).isSome = true := by
    refine ⟨by simpa using hmax, ?_⟩
    intro ins hins
    rcases List.mem_append.mp hins with h | h
    · exact opcodeName_straightLine regCount ins (hprog ins h)
    · rw [List.mem_singleton] at h
      subst h
      obtain ⟨name, hname⟩ := opcodeName_of_range ins.op (by omega)
      rw [hname]; rfl
  obtain ⟨s, hrun, hRF, hout, htr, hPC, hIR, -⟩ :=
    runLoop_straightLine (prog ++ [halt]) halt hhalt (by simpa using hint) prog []
      (initSim regCount stackHeight vmIn) fuel rfl
      (show (CInt.ofInt 0).val = ((0 : Nat) : Int) by decide)
      (by simpa [initSim, initVM, callocVM] using hprog)
      (show readAt (List.replicate 100 (CInt.ofInt 0)) (CInt.ofInt 0) = some (CInt.ofInt 0)
        by decide) hfuel
  refine ⟨s, ?_, hRF, hout, ?_, ?_, hIR⟩
  · unfold simulateVM
    rw [if_pos hcond]
    exact hrun
  · rw [htr, List.range_eq_range']
    rfl
  · rw [hPC]; simp

/-! ## The theorems at concrete machines -/

/-- C1 at a machine inside a procedure: `CAL 0 1 20` then `RTN`. -/
theorem call_then_return_restores_witness :
    ∃ v1 v2,
      executeInstruction calleeVM (Instruction.ofInts 5 0 1 20) idleChannels
        = some (v1, idleChannels, Status.CONT)
      ∧ executeInstruction v1 (Instruction.ofInts 2 0 0 0) idleChannels
        = some (v2, idleChannels, Status.CONT)
      ∧ v2.BP = calleeVM.BP ∧ v2.PC = calleeVM.PC ∧ v2.SP = calleeVM.SP :=
  call_then_return_restores calleeVM (Instruction.ofInts 5 0 1 20) (Instruction.ofInts 2 0 0 0)
    idleChannels (by decide) (by decide) (by decide) (by decide) (by decide) (by decide)

/-- C2 fails as stated: the program `LIT 0 0 7; INC 0 0 1; STO 0 0 1` run from
the initial state leaves `SP = BP = 1` with slot `1` holding `7`; the four slots
`1 .. 4` are inside the stack and the chase of one static link from `BP` in
that stack gives `7`, but `CAL 0 1 9` writes `0` into slot `SP + 1`, because it
zeroes slot `SP` before it chases. -/
theorem cal_static_link_counterexample :
    (match runLoop aliasProgram 3 (initSim 8 16 []) with
      | Outcome.running s => some s.vm
      | _ => none) = some aliasVM
    ∧ (0 ≤ aliasVM.SP.val ∧ aliasVM.SP.val + 3 < aliasVM.stack.length)
    ∧ getBasePointer aliasVM.stack aliasVM.BP (CInt.ofInt 1) = some (CInt.ofInt 7)
    ∧ (executeInstruction aliasVM (Instruction.ofInts 5 0 1 9) idleChannels).map
        (fun res => slotAt res.1.stack (aliasVM.SP.val + 1)) = some (some (CInt.ofInt 0)) := by
  decide

/-- C2, as the code has it, at a machine inside a procedure: `CAL 0 1 20`. -/
theorem cal_writes_header_witness :
    ∃ v1, executeInstruction calleeVM (Instruction.ofInts 5 0 1 20) idleChannels
        = some (v1, idleChannels, Status.CONT)
      ∧ slotAt v1.stack calleeVM.SP.val = some (CInt.ofInt 0)
      ∧ slotAt v1.stack (calleeVM.SP.val + 1) = some (CInt.ofInt 1)
      ∧ slotAt v1.stack (calleeVM.SP.val + 2) = some calleeVM.BP
      ∧ slotAt v1.stack (calleeVM.SP.val + 3) = some calleeVM.PC
      ∧ v1.BP.val = calleeVM.SP.val + 1 ∧ v1.PC = (Instruction.ofInts 5 0 1 20).m
      ∧ (calleeVM.SP.val ∉ chainSlots calleeVM.stack
            (Instruction.ofInts 5 0 1 20).l.val.toNat calleeVM.BP →
          getBasePointer calleeVM.stack calleeVM.BP (Instruction.ofInts 5 0 1 20).l
            = some (CInt.ofInt 1)) :=
  cal_writes_header calleeVM (Instruction.ofInts 5 0 1 20) idleChannels
    (by decide) (by decide) (by decide) (by decide) (CInt.ofInt 1) (by decide)

/-- C3 at a machine inside a procedure: `RTN` leaves `SP = 4`, `BP = 1` and
`PC = 12`. -/
theorem rtn_restores_from_frame_witness :
    ∃ v1, executeInstruction calleeVM (Instruction.ofInts 2 0 0 0) idleChannels
        = some (v1, idleChannels, Status.CONT)
      ∧ v1.SP.val = calleeVM.BP.val - 1
      ∧ slotAt calleeVM.stack (calleeVM.BP.val + 1) = some v1.BP
      ∧ slotAt calleeVM.stack (calleeVM.BP.val + 2) = some v1.PC
      ∧ v1.RF = calleeVM.RF ∧ v1.stack = calleeVM.stack :=
  rtn_restores_from_frame calleeVM (Instruction.ofInts 2 0 0 0) idleChannels
    (by decide) (by decide) (by decide) (by decide)

/-- C4 fails as stated: in the main block (`BP = 1`) `LOD 1 0 4` loads the value
`40` of slot `BP + 4 - 1`, not the value `20` of slot `BP + 4 - 3`, and
`STO 0 0 4` stores register `0` into slot `BP + 4 - 1` and leaves slot
`BP + 4 - 3` as it was. -/
theorem level_zero_slot_counterexample :
    slotAt sampleVM.stack (sampleVM.BP.val + 4 - 3) = some (CInt.ofInt 20)
    ∧ slotAt sampleVM.stack (sampleVM.BP.val + 4 - 1) = some (CInt.ofInt 40)
    ∧ (executeInstruction sampleVM (Instruction.ofInts 3 1 0 4) idleChannels).map
        (fun res => slotAt res.1.RF 1) = some (some (CInt.ofInt 40))
    ∧ slotAt sampleVM.RF 0 = some (CInt.ofInt 5)
    ∧ (executeInstruction sampleVM (Instruction.ofInts 4 0 0 4) idleChannels).map
        (fun res => (slotAt res.1.stack (sampleVM.BP.val + 4 - 3),
                     slotAt res.1.stack (sampleVM.BP.val + 4 - 1)))
      = some (some (CInt.ofInt 20), some (CInt.ofInt 5)) := by
  decide

/-- C4, as the code has it, at `LOD 1 0 4` in the main block. -/
theorem level_zero_access_slot_witness :
    ((Instruction.ofInts 3 1 0 4).op.val = 3 →
      ∃ x, slotAt sampleVM.stack (sampleVM.BP.val + (Instruction.ofInts 3 1 0 4).m.val - 1)
          = some x
        ∧ executeInstruction sampleVM (Instruction.ofInts 3 1 0 4) idleChannels
            = some ({ sampleVM with
                        RF := sampleVM.RF.set (Instruction.ofInts 3 1 0 4).r.val.toNat x },
                idleChannels, Status.CONT))
    ∧ ((Instruction.ofInts 3 1 0 4).op.val = 4 →
      ∃ x, slotAt sampleVM.RF (Instruction.ofInts 3 1 0 4).r.val = some x
        ∧ executeInstruction sampleVM (Instruction.ofInts 3 1 0 4) idleChannels
            = some ({ sampleVM with
                        stack := sampleVM.stack.set
                          (sampleVM.BP.val + (Instruction.ofInts 3 1 0 4).m.val - 1).toNat x },
                idleChannels, Status.CONT)) :=
  level_zero_access_slot sampleVM (Instruction.ofInts 3 1 0 4) idleChannels
    (by decide) (by decide) (by decide) (by decide) (by decide)

/-- C5 at a machine inside a procedure: `CAL 0 1 20` returns a result, and the
result has the same `SP` and registers. -/
theorem cal_frame_effect_witness :
    (executeInstruction calleeVM (Instruction.ofInts 5 0 1 20) idleChannels).isSome
    ∧ ∀ v1 ch1 st,
        executeInstruction calleeVM (Instruction.ofInts 5 0 1 20) idleChannels
          = some (v1, ch1, st) →
        v1.SP = calleeVM.SP ∧ v1.RF = calleeVM.RF :=
  ⟨(cal_frame_effect calleeVM (Instruction.ofInts 5 0 1 20) idleChannels (by decide)).2
      (by decide) (by decide) (by decide) (by decide),
   fun v1 ch1 st h =>
    let r := (cal_frame_effect calleeVM (Instruction.ofInts 5 0 1 20) idleChannels
      (by decide)).1 v1 ch1 st h
    ⟨r.1, r.2.1⟩⟩

/-- C6 at the program `LIT 0 0 3; LIT 1 0 4; ADD 2 0 1; SIO 2 0 1; SIO 0 0 3`:
the loop halts after five iterations, the output is exactly `7` and registers
`0 .. 2` hold `3`, `4`, `7`. -/
theorem expression_program_evaluates_witness :
    ∃ s, simulateVM 8 16 500 (sumProgram ++ [Instruction.ofInts 11 0 0 3]) [] 5
          = Outcome.halted s
      ∧ s.ch.vmOut = cints [7]
      ∧ s.vm.RF = cints [3, 4, 7, 0, 0, 0, 0, 0]
      ∧ s.trace.map (fun t => t.i.val) = [0, 1, 2, 3, 4] := by
  obtain ⟨s, h1, h2, h3, h4, -, -⟩ :=
    expression_program_evaluates 8 16 500 sumProgram (Instruction.ofInts 11 0 0 3) [] 5
      (by decide) (by decide) (by decide) (by decide) (by decide)
  exact ⟨s, h1, by rw [h3]; decide, by rw [h2]; decide, by rw [h4]; decide⟩

/-- C7 at `LSS 4 3 2` with `RF[3] = -2` and `RF[2] = 3`: register `4` gets `1`. -/
theorem comparison_writes_zero_or_one_witness :
    executeInstruction sampleVM (Instruction.ofInts 21 4 3 2) idleChannels
      = some ({ sampleVM with RF := sampleVM.RF.set 4 (CInt.ofInt 1) },
          idleChannels, Status.CONT) := by
  obtain ⟨x, h1, -, h01, -, -, h21, -, -, -⟩ :=
    comparison_writes_zero_or_one sampleVM (Instruction.ofInts 21 4 3 2) idleChannels
      (CInt.ofInt (-2)) (CInt.ofInt 3) (by decide) (by decide) (by decide) (by decide)
  have hx : x = CInt.ofInt 1 := Subtype.ext ((h21 (by decide)).mpr (by decide))
  rw [h1, hx]
  rfl

/-- C8 at `JPC 1 0 9` with `RF[1] = 0` (the jump is taken), at `JPC 0 0 9` with
`RF[0] = 5` (it is not) and at `JMP 0 0 9`. -/
theorem jump_sets_pc_witness :
    (∃ v1, executeInstruction sampleVM (Instruction.ofInts 8 1 0 9) idleChannels
        = some (v1, idleChannels, Status.CONT) ∧ v1.PC = CInt.ofInt 9)
    ∧ (∃ v1, executeInstruction sampleVM (Instruction.ofInts 8 0 0 9) idleChannels
        = some (v1, idleChannels, Status.CONT) ∧ v1.PC = sampleVM.PC)
    ∧ executeInstruction sampleVM (Instruction.ofInts 7 0 0 9) idleChannels
        = some ({ sampleVM with PC := CInt.ofInt 9 }, idleChannels, Status.CONT) := by
  obtain ⟨v1, h1, h2, -⟩ :=
    (jump_sets_pc sampleVM (Instruction.ofInts 8 1 0 9) idleChannels).2 (by decide)
      (CInt.ofInt 0) (by decide)
  obtain ⟨v2, h3, -, h4, -⟩ :=
    (jump_sets_pc sampleVM (Instruction.ofInts 8 0 0 9) idleChannels).2 (by decide)
      (CInt.ofInt 5) (by decide)
  exact ⟨⟨v1, h1, h2 (by decide)⟩, ⟨v2, h3, h4 (by decide)⟩,
    (jump_sets_pc sampleVM (Instruction.ofInts 7 0 0 9) idleChannels).1 (by decide)⟩

/-- C9 at the halt instruction, at the unrecognized opcodes `0` and `25`, and at
`INC 0 0 4`. -/
theorem halt_iff_halt_or_unrecognized_witness :
    (∃ ch1, executeInstruction sampleVM (Instruction.ofInts 11 0 0 3) idleChannels
        = some (sampleVM, ch1, Status.HALT))
    ∧ (∃ ch1, executeInstruction sampleVM (Instruction.ofInts 0 0 0 0) idleChannels
        = some (sampleVM, ch1, Status.HALT))
    ∧ (∃ ch1, executeInstruction sampleVM (Instruction.ofInts 25 0 0 0) idleChannels
        = some (sampleVM, ch1, Status.HALT))
    ∧ (∃ v1 ch1, executeInstruction sampleVM (Instruction.ofInts 6 0 0 4) idleChannels
        = some (v1, ch1, Status.CONT))
    ∧ ¬ (∃ v1 ch1, executeInstruction sampleVM (Instruction.ofInts 6 0 0 4) idleChannels
        = some (v1, ch1, Status.HALT)) :=
  ⟨(halt_iff_halt_or_unrecognized sampleVM (Instruction.ofInts 11 0 0 3) idleChannels).2.1
      (by decide),
   (halt_iff_halt_or_unrecognized sampleVM (Instruction.ofInts 0 0 0 0) idleChannels).2.1
      (by decide),
   (halt_iff_halt_or_unrecognized sampleVM (Instruction.ofInts 25 0 0 0) idleChannels).2.1
      (by decide),
   (halt_iff_halt_or_unrecognized sampleVM (Instruction.ofInts 6 0 0 4) idleChannels).2.2.1
      (by decide) (by unfold stepDefined; trivial),
   fun h => absurd
    ((halt_iff_halt_or_unrecognized sampleVM (Instruction.ofInts 6 0 0 4) idleChannels).1.mp h)
    (by decide)⟩

/-- C10 fails as stated: with `RF[1] = 0`, `DIV 2 0 1` and `MOD 2 0 1` have no
result at all (no halt of any kind is returned), and the halt instruction and
an unrecognized opcode return the same status. -/
theorem div_by_zero_counterexample :
    slotAt sampleVM.RF 1 = some (CInt.ofInt 0)
    ∧ executeInstruction sampleVM (Instruction.ofInts 16 2 0 1) idleChannels = none
    ∧ executeInstruction sampleVM (Instruction.ofInts 18 2 0 1) idleChannels = none
    ∧ (executeInstruction sampleVM (Instruction.ofInts 11 0 0 3) idleChannels).map
          (fun res => res.2.2)
        = (executeInstruction sampleVM (Instruction.ofInts 25 0 0 0) idleChannels).map
          (fun res => res.2.2) := by
  decide

/-- C10, as the code has it, at `DIV 2 0 1` with `RF[1] = 0`. -/
theorem div_mod_by_zero_undefined_witness :
    executeInstruction sampleVM (Instruction.ofInts 16 2 0 1) idleChannels = none :=
  (div_mod_by_zero_undefined sampleVM (Instruction.ofInts 16 2 0 1) idleChannels
    (Or.inl (by decide)) (CInt.ofInt 0) (by decide) (by decide)).1

/-! ## Register instructions -/

/-- The opcodes whose only effect is a write into register `r`: `LIT`, `NEG`,
`ADD`, `SUB`, `MUL`, `DIV`, `ODD`, `MOD` and the six comparisons. -/
theorem exec_register_op (v : VirtualMachine) (ins : Instruction) (ch : Channels)
    (hop : ins.op.val = 1 ∨ (12 ≤ ins.op.val ∧ ins.op.val ≤ 24))
    (hd : stepDefined v ins) :
    validIdx v.RF ins.r
    ∧ ∃ x, executeInstruction v ins ch
        = some ({ v with RF := v.RF.set ins.r.val.toNat x }, ch, Status.CONT) := by
  obtain ⟨⟨v1, ch1, st⟩, hres⟩ :=
    Option.isSome_iff_exists.mp ((executeInstruction_isSome_iff v ins ch).mpr hd)
  have hcases : ins.op.val = 1 ∨ ins.op.val = 12 ∨ ins.op.val = 13
      ∨ ins.op.val = 14 ∨ ins.op.val = 15 ∨ ins.op.val = 16 ∨ ins.op.val = 17
      ∨ ins.op.val = 18 ∨ ins.op.val = 19 ∨ ins.op.val = 20 ∨ ins.op.val = 21
      ∨ ins.op.val = 22 ∨ ins.op.val = 23 ∨ ins.op.val = 24 := by omega
  have hr : validIdx v.RF ins.r := by
    unfold stepDefined at hd
    rcases hcases with h | h | h | h | h | h | h | h | h | h | h | h | h | h <;>
      simp only [h] at hd <;> first | exact hd | exact hd.1 | exact hd.2 | exact hd.2.2
  refine ⟨hr, ?_⟩
  have hshape : ∀ res, executeInstruction v ins ch = some res →
      ∃ x, res = ({ v with RF := v.RF.set ins.r.val.toNat x }, ch, Status.CONT) := by
    unfold executeInstruction
    rcases hcases with h | h | h | h | h | h | h | h | h | h | h | h | h | h <;>
      simp only [h, bind, writeAt_of_bounds _ hr.1 hr.2] <;>
      repeat' first
        | (intro r h; cases h; exact ⟨_, rfl⟩)
        | (intro r h; cases h)
        | (refine Option.bind_sat ?_; intro _)
        | split
  obtain ⟨x, hx⟩ := hshape _ hres
  exact ⟨x, by rw [hres, hx]⟩

theorem slotAt_set_self (xs : List CInt) (i : CInt) (x : CInt) (h : validIdx xs i) :
    slotAt (xs.set i.val.toNat x) i.val = some x := by
  rw [slotAt_set, if_pos]
  exact ⟨(Int.toNat_of_nonneg h.1).symm, by have := h.1; have := h.2; omega⟩

theorem slotAt_set_other (xs : List CInt) (i : CInt) (x : CInt) (j : Int) (h : j ≠ i.val)
    (hi : 0 ≤ i.val) :
    slotAt (xs.set i.val.toNat x) j = slotAt xs j := by
  rw [slotAt_set, if_neg]
  intro hc
  exact h (by rw [hc.1]; exact Int.toNat_of_nonneg hi)

/-- C17, as the code has it: a register instruction (`LIT`, `NEG`, `ADD`, `SUB`,
`MUL`, `DIV`, `ODD`, `MOD` or a comparison) on which the step is defined (the register indices that
the instruction uses are valid, and `DIV` and `MOD` divide neither by zero nor
`INT_MIN` by `-1`) returns `CONT` and changes at most register `r`: every
other register, the stack, `PC`, `BP`, `SP` and the streams are unchanged; for
`LIT` the new value of register `r` is `m`. -/
theorem register_instruction_frame (v : VirtualMachine) (ins : Instruction) (ch : Channels)
    (hop : ins.op.val = 1 ∨ (12 ≤ ins.op.val ∧ ins.op.val ≤ 24))
    (hd : stepDefined v ins) :
    ∃ v1, executeInstruction v ins ch = some (v1, ch, Status.CONT)
      ∧ (∀ j : Int, j ≠ ins.r.val → slotAt v1.RF j = slotAt v.RF j)
      ∧ v1.RF.length = v.RF.length
      ∧ v1.stack = v.stack ∧ v1.PC = v.PC ∧ v1.BP = v.BP ∧ v1.SP = v.SP
      ∧ (ins.op.val = 1 → slotAt v1.RF ins.r.val = some ins.m) := by
  obtain ⟨hr, x, hx⟩ := exec_register_op v ins ch hop hd
  refine ⟨_, hx, ?_, by simp, rfl, rfl, rfl, rfl, ?_⟩
  · intro j hj
    exact slotAt_set_other v.RF ins.r x j hj hr.1
  · intro h1
    have hlit : executeInstruction v ins ch
        = some ({ v with RF := v.RF.set ins.r.val.toNat ins.m }, ch, Status.CONT) := by
      unfold executeInstruction
      simp only [h1, bind, writeAt_of_bounds _ hr.1 hr.2, Option.some_bind]
    rw [hlit] at hx
    simp only [Option.some.injEq, Prod.mk.injEq, VirtualMachine.mk.injEq, true_and,
      and_true] at hx
    rw [← hx]
    exact slotAt_set_self v.RF ins.r ins.m hr

theorem wrap32_congruent (e : Int) : (wrap32 e - e) % 4294967296 = 0 := by
  unfold wrap32
  omega

/-- C14: `NEG`, `ADD`, `SUB` and `MUL` write into register `r` the signed
32-bit integer that is congruent modulo `2^32` to the exact result, with status
`CONT`; when the exact result is itself a signed 32-bit integer the register
holds it. -/
theorem arithmetic_wraps (v : VirtualMachine) (ins : Instruction) (ch : Channels) (a : CInt)
    (hl : readAt v.RF ins.l = some a) (hr : validIdx v.RF ins.r) :
    (ins.op.val = 12 →
      ∃ x : CInt, executeInstruction v ins ch
          = some ({ v with RF := v.RF.set ins.r.val.toNat x }, ch, Status.CONT)
        ∧ (x.val - (- a.val)) % 4294967296 = 0
        ∧ (-2147483648 ≤ - a.val ∧ - a.val < 2147483648 → x.val = - a.val))
    ∧ (∀ b : CInt, readAt v.RF ins.m = some b →
        (ins.op.val = 13 →
          ∃ x : CInt, executeInstruction v ins ch
              = some ({ v with RF := v.RF.set ins.r.val.toNat x }, ch, Status.CONT)
            ∧ (x.val - (a.val + b.val)) % 4294967296 = 0
            ∧ (-2147483648 ≤ a.val + b.val ∧ a.val + b.val < 2147483648 →
                x.val = a.val + b.val))
        ∧ (ins.op.val = 14 →
          ∃ x : CInt, executeInstruction v ins ch
              = some ({ v with RF := v.RF.set ins.r.val.toNat x }, ch, Status.CONT)
            ∧ (x.val - (a.val - b.val)) % 4294967296 = 0
            ∧ (-2147483648 ≤ a.val - b.val ∧ a.val - b.val < 2147483648 →
                x.val = a.val - b.val))
        ∧ (ins.op.val = 15 →
          ∃ x : CInt, executeInstruction v ins ch
              = some ({ v with RF := v.RF.set ins.r.val.toNat x }, ch, Status.CONT)
            ∧ (x.val - (a.val * b.val)) % 4294967296 = 0
            ∧ (-2147483648 ≤ a.val * b.val ∧ a.val * b.val < 2147483648 →
                x.val = a.val * b.val))) := by
  have hneg : (CInt.ofInt (-1)).val = -1 := by decide
  refine ⟨?_, ?_⟩
  · intro h
    refine ⟨(CInt.ofInt (-1)).mul a, ?_, ?_, ?_⟩
    · unfold executeInstruction
      simp only [h, bind, hl, Option.some_bind, writeAt_of_bounds _ hr.1 hr.2]
    · simp only [CInt.mul_val, hneg, neg_one_mul]
      exact wrap32_congruent _
    · intro hin
      simp only [CInt.mul_val, hneg, neg_one_mul]
      exact wrap32_eq_self hin.1 hin.2
  · intro b hm
    refine ⟨?_, ?_, ?_⟩
    · intro h
      refine ⟨a.add b, ?_, wrap32_congruent _, fun hin => wrap32_eq_self hin.1 hin.2⟩
      unfold executeInstruction
      simp only [h, bind, hl, hm, Option.some_bind, writeAt_of_bounds _ hr.1 hr.2]
    · intro h
      refine ⟨a.sub b, ?_, wrap32_congruent _, fun hin => wrap32_eq_self hin.1 hin.2⟩
      unfold executeInstruction
      simp only [h, bind, hl, hm, Option.some_bind, writeAt_of_bounds _ hr.1 hr.2]
    · intro h
      refine ⟨a.mul b, ?_, wrap32_congruent _, fun hin => wrap32_eq_self hin.1 hin.2⟩
      unfold executeInstruction
      simp only [h, bind, hl, hm, Option.some_bind, writeAt_of_bounds _ hr.1 hr.2]

/-! ## Truncated division -/

theorem neg_tmod_eq (a b : Int) : (-a).tmod b = -(a.tmod b) := by
  rw [Int.tmod_def, Int.tmod_def, Int.neg_tdiv]
  ring

/-- The remainder of the C operator `%` is smaller than the divisor in absolute
value and is zero or has the sign of the dividend. -/
theorem tmod_bounds (a b : Int) (hb : b ≠ 0) :
    |a.tmod b| < |b|
    ∧ (a.tmod b = 0 ∨ (0 < a.tmod b ∧ 0 < a) ∨ (a.tmod b < 0 ∧ a < 0)) := by
  have hpos : ∀ x : Int, 0 ≤ x → 0 ≤ x.tmod b ∧ x.tmod b < |b| := by
    intro x hx
    refine ⟨Int.tmod_nonneg b hx, ?_⟩
    rcases lt_or_gt_of_ne hb with h | h
    · have h1 := Int.tmod_lt_of_pos x (show 0 < -b by omega)
      rw [Int.tmod_neg] at h1
      rw [abs_of_neg h]
      exact h1
    · rw [abs_of_pos h]
      exact Int.tmod_lt_of_pos x h
  rcases le_or_lt 0 a with ha | ha
  · obtain ⟨h0, h1⟩ := hpos a ha
    refine ⟨by rw [abs_of_nonneg h0]; exact h1, ?_⟩
    rcases eq_or_lt_of_le h0 with h | h
    · exact Or.inl h.symm
    · refine Or.inr (Or.inl ⟨h, ?_⟩)
      rcases eq_or_lt_of_le ha with h2 | h2
      · rw [← h2, Int.zero_tmod] at h
        exact absurd h (lt_irrefl 0)
      · exact h2
  · obtain ⟨h0, h1⟩ := hpos (-a) (by omega)
    rw [neg_tmod_eq] at h0 h1
    refine ⟨by rw [abs_of_nonpos (by omega)]; exact h1, ?_⟩
    rcases eq_or_lt_of_le h0 with h | h
    · exact Or.inl (by omega)
    · exact Or.inr (Or.inr ⟨by omega, ha⟩)

/-- The quotient of the C operator `/` on two `int` is an `int`, the quotient
`INT_MIN / -1` apart. -/
theorem tdiv_in_range (a b : CInt) (hov : ¬ (a.val = -2147483648 ∧ b.val = -1)) :
    -2147483648 ≤ a.val.tdiv b.val ∧ a.val.tdiv b.val < 2147483648 := by
  have ha := a.2
  have hq := Int.natAbs_tdiv a.val b.val
  have hle : (a.val.tdiv b.val).natAbs ≤ a.val.natAbs := by
    rw [hq]; exact Nat.div_le_self _ _
  have hna : a.val.natAbs ≤ 2147483648 := by omega
  refine ⟨by omega, ?_⟩
  by_contra hge
  have hq2 : (a.val.tdiv b.val).natAbs = 2147483648 := by omega
  have hamin : a.val = -2147483648 := by omega
  have hb1 : b.val.natAbs = 1 := by
    by_contra hne
    have hdiv : a.val.natAbs / b.val.natAbs = 2147483648 := by
      rw [← hq2, hq]; rfl
    have han : a.val.natAbs = 2147483648 := by omega
    rw [han] at hdiv
    rcases Nat.eq_zero_or_pos b.val.natAbs with h0 | hpos
    · rw [h0] at hdiv; simp at hdiv
    · have h2 : 2 ≤ b.val.natAbs := by omega
      have h3 := Nat.div_mul_le_self 2147483648 b.val.natAbs
      rw [hdiv] at h3
      omega
  have hbcases : b.val = 1 ∨ b.val = -1 := by omega
  rcases hbcases with h | h
  · rw [h, Int.tdiv_one] at hge
    omega
  · exact hov ⟨hamin, h⟩

/-- C19: with a divisor that is not zero (and not `-1` under the dividend
`INT_MIN`), `DIV` writes a quotient `q` and `MOD` writes a remainder `rem` with
`a = q * b + rem`, `|rem| < |b|`, and `rem` zero or of the sign of the dividend
`a`: the division truncates toward zero. -/
theorem div_mod_truncate (v : VirtualMachine) (insD insM : Instruction) (ch : Channels)
    (a b : CInt)
    (hD : insD.op.val = 16) (hM : insM.op.val = 18)
    (hDl : readAt v.RF insD.l = some a) (hDm : readAt v.RF insD.m = some b)
    (hMl : readAt v.RF insM.l = some a) (hMm : readAt v.RF insM.m = some b)
    (hDr : validIdx v.RF insD.r) (hMr : validIdx v.RF insM.r)
    (hb : b.val ≠ 0) (hov : ¬ (a.val = -2147483648 ∧ b.val = -1)) :
    ∃ q rem : CInt,
      executeInstruction v insD ch
        = some ({ v with RF := v.RF.set insD.r.val.toNat q }, ch, Status.CONT)
      ∧ executeInstruction v insM ch
        = some ({ v with RF := v.RF.set insM.r.val.toNat rem }, ch, Status.CONT)
      ∧ a.val = q.val * b.val + rem.val
      ∧ |rem.val| < |b.val|
      ∧ (rem.val = 0 ∨ (0 < rem.val ∧ 0 < a.val) ∨ (rem.val < 0 ∧ a.val < 0)) := by
  have hq := tdiv_in_range a b hov
  obtain ⟨hr1, hr2⟩ := tmod_bounds a.val b.val hb
  have hbr := b.2
  have hrem : -2147483648 ≤ a.val.tmod b.val ∧ a.val.tmod b.val < 2147483648 := by
    have h1 := abs_lt.mp (lt_of_lt_of_le hr1 (show |b.val| ≤ 2147483648 from
      abs_le.mpr ⟨by omega, by omega⟩))
    omega
  have hcond : ¬ (b.val = 0 ∨ (a.val = -2147483648 ∧ b.val = -1)) := by
    rintro (h | h)
    · exact hb h
    · exact hov h
  have hqv : (CInt.ofInt (a.val.tdiv b.val)).val = a.val.tdiv b.val :=
    wrap32_eq_self hq.1 hq.2
  have hrv : (CInt.ofInt (a.val.tmod b.val)).val = a.val.tmod b.val :=
    wrap32_eq_self hrem.1 hrem.2
  refine ⟨CInt.ofInt (a.val.tdiv b.val), CInt.ofInt (a.val.tmod b.val), ?_, ?_, ?_, ?_, ?_⟩
  · unfold executeInstruction
    simp only [hD, bind, hDl, hDm, Option.some_bind, if_neg hcond,
      writeAt_of_bounds _ hDr.1 hDr.2]
  · unfold executeInstruction
    simp only [hM, bind, hMl, hMm, Option.some_bind, if_neg hcond,
      writeAt_of_bounds _ hMr.1 hMr.2]
  · rw [hqv, hrv]
    exact (Int.tdiv_add_tmod' a.val b.val).symm
  · rw [hrv]; exact hr1
  · rw [hrv]; exact hr2

theorem tmod_two_cases (x : Int) :
    (x % 2 = 0 → x.tmod 2 = 0)
    ∧ (x % 2 = 1 → 0 < x → x.tmod 2 = 1)
    ∧ (x % 2 = 1 → x < 0 → x.tmod 2 = -1) := by
  rcases le_or_lt 0 x with h | h
  · have e := Int.tmod_eq_emod h (show (0 : Int) ≤ 2 by decide)
    omega
  · have e := Int.tmod_eq_emod (show 0 ≤ -x by omega) (show (0 : Int) ≤ 2 by decide)
    rw [neg_tmod_eq] at e
    omega

/-- C20: `ODD` overwrites register `r` with the truncated remainder of its
value `x` by 2: `0` exactly when `x` is even, `1` when `x` is odd and positive,
`-1` when `x` is odd and negative; the result is non-zero exactly when `x` is
odd, and the fields `l` and `m` of the instruction are not used. -/
theorem odd_writes_truncated_remainder (v : VirtualMachine) (ins : Instruction)
    (ch : Channels) (x : CInt)
    (hop : ins.op.val = 17) (hx : readAt v.RF ins.r = some x) :
    ∃ y : CInt,
      executeInstruction v ins ch
        = some ({ v with RF := v.RF.set ins.r.val.toNat y }, ch, Status.CONT)
      ∧ (y.val = 0 ↔ x.val % 2 = 0)
      ∧ (x.val % 2 = 1 → 0 < x.val → y.val = 1)
      ∧ (x.val % 2 = 1 → x.val < 0 → y.val = -1)
      ∧ (y.val ≠ 0 ↔ x.val % 2 = 1)
      ∧ (∀ l2 m2 : CInt,
          executeInstruction v { ins with l := l2, m := m2 } ch
            = executeInstruction v ins ch) := by
  have hr : validIdx v.RF ins.r := (readAt_isSome_iff _ _).mp (by rw [hx]; rfl)
  obtain ⟨h0, h1, h2⟩ := tmod_two_cases x.val
  have hcases : x.val.tmod 2 = 0 ∨ x.val.tmod 2 = 1 ∨ x.val.tmod 2 = -1 := by omega
  have hy : (CInt.ofInt (x.val.tmod 2)).val = x.val.tmod 2 :=
    wrap32_eq_self (by omega) (by omega)
  refine ⟨CInt.ofInt (x.val.tmod 2), ?_, ?_, ?_, ?_, ?_, ?_⟩
  · unfold executeInstruction
    simp only [hop, bind, hx, Option.some_bind, writeAt_of_bounds _ hr.1 hr.2]
  · rw [hy]; omega
  · rw [hy]; exact h1
  · rw [hy]; exact h2
  · rw [hy]; omega
  · intro l2 m2
    unfold executeInstruction
    simp only [hop]

/-- C18: `STO r, l, m` changes only the stack slot `a = base + m - 1`, where
`base` is the base that `getBasePointer` reaches from `BP` in `l` levels, and
when `a` is not one of the static-link slots read on the way (no condition for
`l = 0`) a following `LOD r2, l, m` leaves in register `r2` the value that was
stored. -/
theorem store_then_load (v : VirtualMachine) (sto lod : Instruction) (ch : Channels)
    (base x : CInt)
    (hsto : sto.op.val = 4) (hlod : lod.op.val = 3)
    (hl : lod.l = sto.l) (hm : lod.m = sto.m)
    (hbase : getBasePointer v.stack v.BP sto.l = some base)
    (hx : readAt v.RF sto.r = some x) (hr2 : validIdx v.RF lod.r)
    (ha0 : 0 ≤ base.val + sto.m.val - 1) (ha1 : base.val + sto.m.val - 1 < v.stack.length)
    (hcap : v.stack.length ≤ 2147483648)
    (hal : sto.l.val = 0
      ∨ base.val + sto.m.val - 1 ∉ chainSlots v.stack sto.l.val.toNat v.BP) :
    ∃ v1 v2,
      executeInstruction v sto ch = some (v1, ch, Status.CONT)
      ∧ v1.RF = v.RF ∧ v1.PC = v.PC ∧ v1.BP = v.BP ∧ v1.SP = v.SP
      ∧ v1.stack.length = v.stack.length
      ∧ slotAt v1.stack (base.val + sto.m.val - 1) = some x
      ∧ (∀ i : Int, i ≠ base.val + sto.m.val - 1 → slotAt v1.stack i = slotAt v.stack i)
      ∧ executeInstruction v1 lod ch = some (v2, ch, Status.CONT)
      ∧ slotAt v2.RF lod.r.val = some x := by
  have hidx := CInt.offset_val base sto.m ha0 (by omega)
  have hn : (((base.val + sto.m.val - 1).toNat : Nat) : Int) = base.val + sto.m.val - 1 :=
    Int.toNat_of_nonneg ha0
  have hw : writeAt v.stack ((base.add sto.m).sub (CInt.ofInt 1)) x
      = some (v.stack.set (base.val + sto.m.val - 1).toNat x) := by
    rw [writeAt_of_bounds x (by omega) (by omega), hidx]
  have hs1 : executeInstruction v sto ch
      = some ({ v with stack := v.stack.set (base.val + sto.m.val - 1).toNat x },
          ch, Status.CONT) := by
    unfold executeInstruction
    simp only [hsto, bind, hbase, hx, hw, Option.some_bind]
  have hself : slotAt (v.stack.set (base.val + sto.m.val - 1).toNat x)
      (base.val + sto.m.val - 1) = some x := by
    rw [slotAt_set, if_pos]
    exact ⟨hn.symm, by omega⟩
  have hbase1 : getBasePointer (v.stack.set (base.val + sto.m.val - 1).toNat x) v.BP lod.l
      = some base := by
    rw [hl, ← hbase]
    apply getBasePointerLoop_set_of_not_mem
    rcases hal with h0 | hnot
    · rw [h0]
      simp [chainSlots]
    · rw [hn]
      exact hnot
  refine ⟨_, VirtualMachine.mk v.BP v.SP v.PC v.IR (v.RF.set lod.r.val.toNat x)
      (v.stack.set (base.val + sto.m.val - 1).toNat x),
    hs1, rfl, rfl, rfl, rfl, by simp, hself, ?_, ?_, slotAt_set_self v.RF lod.r x hr2⟩
  · intro i hi
    rw [slotAt_set, if_neg]
    intro hc
    exact hi (by rw [hc.1]; exact hn)
  · unfold executeInstruction
    simp only [hlod, bind, hbase1, Option.some_bind, readAt, hm, hidx, hself,
      writeAt_of_bounds _ hr2.1 hr2.2]

/-! ## One iteration of the loop of `simulateVM` -/

/-- The parts of a defined iteration of the loop: the instruction fetched at
`PC`, the result of `executeInstruction` on the machine whose `PC` is already
advanced, the result of the bookkeeping, and the trace line. -/
theorem simStep_eq_some (code : List Instruction) (s s1 : Sim) (st : Status)
    (h : simStep code s = some (s1, st)) :
    ∃ ins vm2 ch2 vm3 AR3 cur3 flag3,
      fetch code s.vm.PC = some ins
      ∧ executeInstruction
          (VirtualMachine.mk s.vm.BP s.vm.SP (s.vm.PC.add (CInt.ofInt 1)) ins.op s.vm.RF
            s.vm.stack) ins s.ch = some (vm2, ch2, st)
      ∧ updateAR vm2 s.vm.SP ins.m s.AR s.currentAR s.flag = some (vm3, AR3, cur3, flag3)
      ∧ s1.vm = vm3 ∧ s1.ch = ch2 ∧ s1.AR = AR3 ∧ s1.currentAR = cur3 ∧ s1.flag = flag3 := by
  unfold simStep at h
  simp only [bind, Option.bind_eq_some] at h
  obtain ⟨ins, hf, ⟨vm2, ch2, st2⟩, hex, ⟨vm3, AR3, cur3, flag3⟩, hup, name, -, cells, -, hres⟩ := h
  simp only [Option.some.injEq, Prod.mk.injEq] at hres
  obtain ⟨rfl, rfl⟩ := hres
  exact ⟨ins, vm2, ch2, vm3, AR3, cur3, flag3, hf, hex, hup, rfl, rfl, rfl, rfl, rfl⟩

/-- No instruction changes `IR`. -/
theorem exec_IR (v : VirtualMachine) (ins : Instruction) (ch : Channels) :
    ∀ res, executeInstruction v ins ch = some res → res.1.IR = v.IR := by
  unfold executeInstruction
  split
  all_goals try simp only [bind]
  all_goals
    repeat' first
      | (intro r h; cases h; rfl)
      | (intro r h; cases h)
      | (refine Option.bind_sat ?_; intro _)
      | split

/-- Only `RTN`, `CAL`, `JMP` and `JPC` change `PC`. -/
theorem exec_PC_other (v : VirtualMachine) (ins : Instruction) (ch : Channels)
    (h2 : ins.op.val ≠ 2) (h5 : ins.op.val ≠ 5) (h7 : ins.op.val ≠ 7) (h8 : ins.op.val ≠ 8) :
    ∀ res, executeInstruction v ins ch = some res → res.1.PC = v.PC := by
  unfold executeInstruction
  split
  all_goals first | omega | skip
  all_goals try simp only [bind]
  all_goals
    repeat' first
      | (intro r h; cases h; rfl)
      | (intro r h; cases h)
      | (refine Option.bind_sat ?_; intro _)
      | split

/-- The loop that zeroes the slots of a frame keeps the size of the stack and
leaves every slot as it was or zero. -/
theorem clearFrame_slots (oldSP : CInt) :
    ∀ (n : Nat) (j : CInt) (stack cleared : List CInt),
      clearFrame oldSP n j stack = some cleared →
      cleared.length = stack.length
      ∧ ∀ i : Int, slotAt cleared i = slotAt stack i ∨ slotAt cleared i = some (CInt.ofInt 0) := by
  intro n
  induction n with
  | zero =>
    intro j stack cleared h
    simp only [clearFrame, Option.some.injEq] at h
    subst h
    exact ⟨rfl, fun i => Or.inl rfl⟩
  | succ n ih =>
    intro j stack cleared h
    simp only [clearFrame] at h
    cases hw : writeAt stack (oldSP.sub j) (CInt.ofInt 0) with
    | none => rw [hw] at h; cases h
    | some stack1 =>
      rw [hw] at h
      obtain ⟨hlen, hslots⟩ := ih _ _ _ h
      obtain ⟨-, rfl⟩ := writeAt_eq_some_iff.mp hw
      refine ⟨by rw [hlen, List.length_set], ?_⟩
      intro i
      rcases hslots i with h1 | h1
      · rw [h1, slotAt_set]
        split
        · exact Or.inr rfl
        · exact Or.inl rfl
      · exact Or.inr h1

/-- The bookkeeping of the loop changes the machine only on `RTN`, and then only
the stack, by the loop that zeroes `AR[currentAR]` slots from `oldSP` down. -/
theorem updateAR_eq_some (vm vm3 : VirtualMachine) (oldSP m : CInt) (AR AR3 : List CInt)
    (currentAR flag cur3 flag3 : CInt)
    (h : updateAR vm oldSP m AR currentAR flag = some (vm3, AR3, cur3, flag3)) :
    (vm.IR.val ≠ 2 → vm3 = vm)
    ∧ (vm.IR.val = 2 → ∃ n, readAt AR currentAR = some n
        ∧ clearFrame oldSP n.val.toNat (CInt.ofInt 0) vm.stack = some vm3.stack
        ∧ vm3 = { vm with stack := vm3.stack }) := by
  unfold updateAR at h
  by_cases h2 : vm.IR.val = 2
  · rw [if_pos h2] at h
    simp only [bind, Option.bind_eq_some] at h
    obtain ⟨n, hn, stack, hst, AR1, -, hres⟩ := h
    simp only [Option.some.injEq, Prod.mk.injEq] at hres
    obtain ⟨rfl, -⟩ := hres
    exact ⟨fun hne => absurd h2 hne, fun _ => ⟨n, hn, hst, rfl⟩⟩
  · rw [if_neg h2] at h
    refine ⟨fun _ => ?_, fun he => absurd he h2⟩
    split at h
    · simp only [Option.some.injEq, Prod.mk.injEq] at h
      exact h.1.symm
    · split at h
      · simp only [bind, Option.bind_eq_some] at h
        obtain ⟨n, -, AR1, -, hres⟩ := h
        simp only [Option.some.injEq, Prod.mk.injEq] at hres
        exact hres.1.symm
      · simp only [Option.some.injEq, Prod.mk.injEq] at h
        exact h.1.symm


theorem fetch_bounds (code : List Instruction) (pc : CInt) (ins : Instruction)
    (h : fetch code pc = some ins) : 0 ≤ pc.val ∧ pc.val < code.length := by
  unfold fetch at h
  split at h
  · rename_i h0
    have := (List.getElem?_eq_some_iff.mp h).1
    omega
  · cases h

/-- An iteration of the loop is defined when the instruction at `PC` is neither
`RTN` nor `INC`, has a mnemonic, is executed with defined behaviour, and no
activation record has been counted yet (`AR[0] = 0`). -/
theorem simStep_isSome (code : List Instruction) (s : Sim) (ins : Instruction)
    (hf : fetch code s.vm.PC = some ins)
    (hd : stepDefined (VirtualMachine.mk s.vm.BP s.vm.SP (s.vm.PC.add (CInt.ofInt 1)) ins.op
      s.vm.RF s.vm.stack) ins)
    (hop : 0 ≤ ins.op.val ∧ ins.op.val ≤ 24) (h2 : ins.op.val ≠ 2) (h6 : ins.op.val ≠ 6)
    (hAR : readAt s.AR (CInt.ofInt 0) = some (CInt.ofInt 0)) :
    (simStep code s).isSome = true := by
  obtain ⟨⟨vm2, ch2, st⟩, hex⟩ :=
    Option.isSome_iff_exists.mp ((executeInstruction_isSome_iff _ ins s.ch).mpr hd)
  have hIR : vm2.IR = ins.op := exec_IR _ ins s.ch _ hex
  obtain ⟨name, hname⟩ := opcodeName_of_range ins.op hop
  have hupd : ∃ cur3, updateAR vm2 s.vm.SP ins.m s.AR s.currentAR s.flag
      = some (vm2, s.AR, cur3, s.flag) := by
    unfold updateAR
    rw [if_neg (by rw [hIR]; exact h2)]
    split
    · exact ⟨_, rfl⟩
    · rw [if_neg (by rw [hIR]; exact h6)]
      exact ⟨_, rfl⟩
  obtain ⟨cur3, hupd⟩ := hupd
  unfold simStep
  simp only [hf, bind, Option.some_bind, hex, hupd, hIR, hname,
    printCells_of_zero _ _ _ _ _ hAR, Option.isSome_some]

/-- C15: in one iteration of the loop of `simulateVM` taken from `PC = p` the
instruction given to `executeInstruction` is the one stored at index `p`, and
it is executed on the machine whose `PC` is already `p + 1`; after the
iteration `PC` is `p + 1` for every opcode other than `RTN`, `CAL`, `JMP` and
`JPC`, it is the field `m` for `JMP` and `CAL`, and for `JPC` it is `m` when
register `r` holds `0` and `p + 1` otherwise. The iteration is defined at least
when the instruction is neither `RTN` nor `INC`, has a mnemonic, is executed
with defined behaviour, and `AR[0] = 0`. -/
theorem step_program_counter (code : List Instruction) (s : Sim)
    (hlen : code.length < 2147483648) :
    (∀ s1 st, simStep code s = some (s1, st) →
      ∃ ins, fetch code s.vm.PC = some ins
        ∧ (∃ vm2 ch2, executeInstruction
              (VirtualMachine.mk s.vm.BP s.vm.SP (s.vm.PC.add (CInt.ofInt 1)) ins.op s.vm.RF
                s.vm.stack) ins s.ch = some (vm2, ch2, st)
            ∧ s1.vm.PC = vm2.PC)
        ∧ (s.vm.PC.add (CInt.ofInt 1)).val = s.vm.PC.val + 1
        ∧ (ins.op.val ≠ 2 → ins.op.val ≠ 5 → ins.op.val ≠ 7 → ins.op.val ≠ 8 →
            s1.vm.PC.val = s.vm.PC.val + 1)
        ∧ (ins.op.val = 7 ∨ ins.op.val = 5 → s1.vm.PC = ins.m)
        ∧ (ins.op.val = 8 → ∀ x, readAt s.vm.RF ins.r = some x →
            (x.val = 0 → s1.vm.PC = ins.m)
            ∧ (x.val ≠ 0 → s1.vm.PC.val = s.vm.PC.val + 1)))
    ∧ (∀ ins, fetch code s.vm.PC = some ins →
        stepDefined (VirtualMachine.mk s.vm.BP s.vm.SP (s.vm.PC.add (CInt.ofInt 1)) ins.op
          s.vm.RF s.vm.stack) ins →
        0 ≤ ins.op.val ∧ ins.op.val ≤ 24 → ins.op.val ≠ 2 → ins.op.val ≠ 6 →
        readAt s.AR (CInt.ofInt 0) = some (CInt.ofInt 0) →
        (simStep code s).isSome = true) := by
  refine ⟨?_, fun ins hf hd hop h2 h6 hAR => simStep_isSome code s ins hf hd hop h2 h6 hAR⟩
  intro s1 st h
  obtain ⟨ins, vm2, ch2, vm3, AR3, cur3, flag3, hf, hex, hup, hvm, -⟩ :=
    simStep_eq_some code s s1 st h
  obtain ⟨hb0, hb1⟩ := fetch_bounds code s.vm.PC ins hf
  have hpc1 := CInt.add_exact s.vm.PC 1 (by omega) hb0 (by omega)
  obtain ⟨hne, heq⟩ := updateAR_eq_some _ _ _ _ _ _ _ _ _ _ hup
  have hPC : s1.vm.PC = vm2.PC := by
    rw [hvm]
    by_cases h2 : vm2.IR.val = 2
    · obtain ⟨n, -, -, h3⟩ := heq h2
      rw [h3]
    · rw [hne h2]
  refine ⟨ins, hf, ⟨vm2, ch2, hex, hPC⟩, hpc1, ?_, ?_, ?_⟩
  · intro h2 h5 h7 h8
    rw [hPC, exec_PC_other _ ins s.ch h2 h5 h7 h8 _ hex]
    exact hpc1
  · rintro (h7 | h5)
    · rw [hPC]
      unfold executeInstruction at hex
      simp only [h7, Option.some.injEq, Prod.mk.injEq] at hex
      rw [← hex.1]
    · rw [hPC]
      obtain ⟨base, -, -, -, -, hres⟩ := exec_cal_eq_some _ ins s.ch h5 _ hex
      simp only [Prod.mk.injEq] at hres
      rw [hres.1]
  · intro h8 x hx
    unfold executeInstruction at hex
    simp only [h8, bind] at hex
    have hx1 : readAt (VirtualMachine.mk s.vm.BP s.vm.SP (s.vm.PC.add (CInt.ofInt 1)) ins.op
        s.vm.RF s.vm.stack).RF ins.r = some x := hx
    rw [hx1, Option.some_bind] at hex
    constructor
    · intro hz
      rw [if_pos hz] at hex
      simp only [Option.some.injEq, Prod.mk.injEq] at hex
      rw [hPC, ← hex.1]
    · intro hz
      rw [if_neg hz] at hex
      simp only [Option.some.injEq, Prod.mk.injEq] at hex
      rw [hPC, ← hex.1]
      exact hpc1

/-- C16, as the code has it: after an iteration of the loop the streams, the
registers, `PC`, `BP`, `SP` and the size of the stack are those that incrementing
`PC` and calling `executeInstruction` give, and so is the whole machine when
the instruction is not `RTN`; on `RTN` the bookkeeping also runs its loop
`stack[oldSP - j] = 0` for `j < AR[currentAR]`, so that every stack slot is as
`executeInstruction` left it or zero. -/
theorem bookkeeping_effect (code : List Instruction) (s s1 : Sim) (st : Status)
    (h : simStep code s = some (s1, st)) :
    ∃ ins vm2 ch2, fetch code s.vm.PC = some ins
      ∧ executeInstruction
          (VirtualMachine.mk s.vm.BP s.vm.SP (s.vm.PC.add (CInt.ofInt 1)) ins.op s.vm.RF
            s.vm.stack) ins s.ch = some (vm2, ch2, st)
      ∧ s1.ch = ch2
      ∧ s1.vm.RF = vm2.RF ∧ s1.vm.PC = vm2.PC ∧ s1.vm.BP = vm2.BP ∧ s1.vm.SP = vm2.SP
      ∧ s1.vm.stack.length = vm2.stack.length
      ∧ (ins.op.val ≠ 2 → s1.vm = vm2)
      ∧ (ins.op.val = 2 → ∃ n, readAt s.AR s.currentAR = some n
          ∧ clearFrame s.vm.SP n.val.toNat (CInt.ofInt 0) vm2.stack = some s1.vm.stack
          ∧ ∀ i : Int, slotAt s1.vm.stack i = slotAt vm2.stack i
              ∨ slotAt s1.vm.stack i = some (CInt.ofInt 0)) := by
  obtain ⟨ins, vm2, ch2, vm3, AR3, cur3, flag3, hf, hex, hup, hvm, hch, -⟩ :=
    simStep_eq_some code s s1 st h
  have hIR : vm2.IR = ins.op := exec_IR _ ins s.ch _ hex
  obtain ⟨hne, heq⟩ := updateAR_eq_some _ _ _ _ _ _ _ _ _ _ hup
  rw [hIR] at hne heq
  refine ⟨ins, vm2, ch2, hf, hex, hch, ?_⟩
  by_cases h2 : ins.op.val = 2
  · obtain ⟨n, hn, hcl, h3⟩ := heq h2
    obtain ⟨hlen, hslots⟩ := clearFrame_slots _ _ _ _ _ hcl
    rw [hvm]
    refine ⟨by rw [h3], by rw [h3], by rw [h3], by rw [h3], hlen, fun hc => absurd h2 hc,
      fun _ => ⟨n, hn, hcl, hslots⟩⟩
  · rw [hvm, hne h2]
    exact ⟨rfl, rfl, rfl, rfl, rfl, fun _ => rfl, fun hc => absurd hc h2⟩

/-! ## Checks that the code does not make -/

theorem readAt_replicate (n : Nat) (z i : CInt) (h0 : 0 ≤ i.val) (h1 : i.val < n) :
    readAt (List.replicate n z) i = some z := by
  have hlt : i.val.toNat < n := by omega
  simp only [readAt, slotAt, h0, if_true, List.getElem?_replicate, hlt]

/-- C11, as the code has it: `RTN` makes no test for a matching `CAL`. Every
result of `RTN` has status `CONT`, writes no diagnostic, and has `SP = BP - 1`
and `BP` and `PC` loaded from the stack; in the initial state (with a stack of
at least four slots) `RTN` gives `SP = 0`, `BP = 0` and `PC = 0`. -/
theorem rtn_unchecked (v : VirtualMachine) (rtn : Instruction) (ch : Channels)
    (hop : rtn.op.val = 2) :
    (∀ v1 ch1 st, executeInstruction v rtn ch = some (v1, ch1, st) →
      st = Status.CONT ∧ ch1 = ch ∧ v1.SP = v.BP.sub (CInt.ofInt 1)
      ∧ readAt v.stack ((v.BP.sub (CInt.ofInt 1)).add (CInt.ofInt 2)) = some v1.BP
      ∧ readAt v.stack ((v.BP.sub (CInt.ofInt 1)).add (CInt.ofInt 3)) = some v1.PC)
    ∧ (∀ regCount stackHeight : Nat, 4 ≤ stackHeight →
        executeInstruction (initVM (callocVM regCount stackHeight)) rtn ch
          = some ({ initVM (callocVM regCount stackHeight) with
                      SP := CInt.ofInt 0, BP := CInt.ofInt 0, PC := CInt.ofInt 0 },
              ch, Status.CONT)) := by
  constructor
  · intro v1 ch1 st h
    rw [exec_rtn v rtn ch hop] at h
    simp only [Option.bind_eq_some] at h
    obtain ⟨b, hb, p, hp, hres⟩ := h
    simp only [Option.some.injEq, Prod.mk.injEq] at hres
    obtain ⟨rfl, rfl, rfl⟩ := hres
    exact ⟨rfl, rfl, rfl, hb, hp⟩
  · intro regCount stackHeight hS
    have e0 : (CInt.ofInt 1).sub (CInt.ofInt 1) = CInt.ofInt 0 := by decide
    have e2 : (CInt.ofInt 0).add (CInt.ofInt 2) = CInt.ofInt 2 := by decide
    have e3 : (CInt.ofInt 0).add (CInt.ofInt 3) = CInt.ofInt 3 := by decide
    have v2 : (CInt.ofInt 2).val = 2 := by decide
    have v3 : (CInt.ofInt 3).val = 3 := by decide
    rw [exec_rtn _ rtn ch hop]
    simp only [initVM, callocVM, e0, e2, e3,
      readAt_replicate stackHeight (CInt.ofInt 0) (CInt.ofInt 2) (by omega) (by omega),
      readAt_replicate stackHeight (CInt.ofInt 0) (CInt.ofInt 3) (by omega) (by omega),
      Option.some_bind]

theorem getBasePointerLoop_eq_none_iff (stack : List CInt) :
    ∀ (n : Nat) (b : CInt), getBasePointerLoop stack n b = none
      ↔ ∃ i ∈ chainSlots stack n b, ¬ (0 ≤ i ∧ i < stack.length) := by
  intro n
  induction n with
  | zero => intro b; simp [getBasePointerLoop, chainSlots]
  | succ n ih =>
    intro b
    simp only [getBasePointerLoop, CInt.add_zero, chainSlots, List.mem_cons]
    cases hr : readAt stack b with
    | none =>
      have hb : ¬ (0 ≤ b.val ∧ b.val < stack.length) := by
        intro hc
        have := (readAt_isSome_iff stack b).mpr hc
        rw [hr] at this
        cases this
      simp only [true_iff]
      exact ⟨b.val, Or.inl rfl, hb⟩
    | some next =>
      have hb : 0 ≤ b.val ∧ b.val < stack.length :=
        (readAt_isSome_iff stack b).mp (by rw [hr]; rfl)
      simp only [ih next]
      constructor
      · rintro ⟨i, hi, hni⟩
        exact ⟨i, Or.inr hi, hni⟩
      · rintro ⟨i, hi | hi, hni⟩
        · rw [hi] at hni
          exact absurd hb hni
        · exact ⟨i, hi, hni⟩

theorem getBasePointerLoop_zeros (n S : Nat) (hS : 1 ≤ S) :
    getBasePointerLoop (List.replicate S (CInt.ofInt 0)) n (CInt.ofInt 0)
      = some (CInt.ofInt 0) := by
  induction n with
  | zero => rfl
  | succ n ih =>
    simp only [getBasePointerLoop, CInt.add_zero,
      readAt_replicate S (CInt.ofInt 0) (CInt.ofInt 0) (by decide) (by
        show (0 : Int) < S
        omega)]
    exact ih

theorem getBasePointerLoop_succ (stack : List CInt) :
    ∀ (n : Nat) (b : CInt), getBasePointerLoop stack (n + 1) b
      = (getBasePointerLoop stack n b).bind (fun base => readAt stack base) := by
  intro n
  induction n with
  | zero =>
    intro b
    simp only [getBasePointerLoop, CInt.add_zero, Option.some_bind]
    cases readAt stack b <;> rfl
  | succ n ih =>
    intro b
    have hstep : ∀ k, getBasePointerLoop stack (k + 1) b
        = (readAt stack b).bind (fun next => getBasePointerLoop stack k next) := by
      intro k
      simp only [getBasePointerLoop, CInt.add_zero]
      cases readAt stack b <;> rfl
    rw [hstep (n + 1), hstep n]
    cases readAt stack b with
    | none => rfl
    | some next => exact ih next

/-- C12, as the code has it: `getBasePointer` makes no test of the call depth.
For a level `L ≤ 0` it returns the base that it was given; for a level `L ≥ 1`
it returns the stack slot whose index is its own result for the level `L - 1`,
so that it reads `stack[base]` `L` times and returns the value that it reads
last, whether or not a `CAL` wrote it. It has no result exactly when one of the
static-link slots that it reads lies outside the stack. In the initial state
(with a stack of at least two slots) every level `L ≥ 1` gives the base `0`. -/
theorem getBasePointer_unchecked (stack : List CInt) (bp L : CInt) :
    (L.val ≤ 0 → getBasePointer stack bp L = some bp)
    ∧ (1 ≤ L.val → getBasePointer stack bp L
        = (getBasePointer stack bp (L.sub (CInt.ofInt 1))).bind
            (fun base => readAt stack base))
    ∧ (getBasePointer stack bp L = none
      ↔ ∃ i ∈ chainSlots stack L.val.toNat bp, ¬ (0 ≤ i ∧ i < stack.length))
    ∧ (∀ regCount stackHeight : Nat, 2 ≤ stackHeight → 1 ≤ L.val →
        getBasePointer (initVM (callocVM regCount stackHeight)).stack
          (initVM (callocVM regCount stackHeight)).BP L = some (CInt.ofInt 0)) := by
  refine ⟨?_, ?_, getBasePointerLoop_eq_none_iff stack L.val.toNat bp, ?_⟩
  · intro hL
    have h0 : L.val.toNat = 0 := by omega
    simp only [getBasePointer, h0, getBasePointerLoop]
  · intro hL
    have hL2 := L.2
    have hs : (L.sub (CInt.ofInt 1)).val = L.val - 1 := by
      simp only [CInt.sub_val, CInt.ofInt_val, wrap32]
      omega
    have hn : L.val.toNat = (L.val - 1).toNat + 1 := by omega
    simp only [getBasePointer, hs]
    rw [hn]
    exact getBasePointerLoop_succ stack (L.val - 1).toNat bp
  intro regCount stackHeight hS hL
  obtain ⟨n, hn⟩ : ∃ n, L.val.toNat = n + 1 := ⟨L.val.toNat - 1, by omega⟩
  have h1 : (CInt.ofInt 1).val = 1 := by decide
  simp only [getBasePointer, hn, initVM, callocVM, getBasePointerLoop, CInt.add_zero,
    readAt_replicate stackHeight (CInt.ofInt 0) (CInt.ofInt 1) (by decide) (by
      rw [h1]
      omega)]
  exact getBasePointerLoop_zeros n stackHeight (by omega)

/-- C13, as the code has it: `INC` is applied without any test: in every state
it returns `CONT` with `SP` increased by `m` (wrapped to an `int`), and from
the initial state it gives `SP = m` for every `m`, negative or not below the
capacity. -/
theorem inc_unchecked (v : VirtualMachine) (ins : Instruction) (ch : Channels)
    (hop : ins.op.val = 6) :
    executeInstruction v ins ch = some ({ v with SP := v.SP.add ins.m }, ch, Status.CONT)
    ∧ (∀ regCount stackHeight : Nat,
        executeInstruction (initVM (callocVM regCount stackHeight)) ins ch
          = some ({ initVM (callocVM regCount stackHeight) with SP := ins.m },
              ch, Status.CONT)) := by
  have hexec : ∀ w : VirtualMachine,
      executeInstruction w ins ch = some ({ w with SP := w.SP.add ins.m }, ch, Status.CONT) := by
    intro w
    unfold executeInstruction
    simp only [hop]
  refine ⟨hexec v, ?_⟩
  intro regCount stackHeight
  rw [hexec]
  have hz : (CInt.ofInt 0).add ins.m = ins.m := by
    apply Subtype.ext
    have h0 : (CInt.ofInt 0).val = 0 := by decide
    rw [CInt.add_val, h0, zero_add]
    exact wrap32_eq_self ins.m.2.1 ins.m.2.2
  simp only [initVM, callocVM, hz]

/-! ## The later theorems at concrete machines -/

/-- C11 fails as stated: in the initial state `RTN` returns `CONT` with no
diagnostic and overwrites `BP` (which was `1`) with the `0` of stack slot `2`;
in the loop of `simulateVM` the program that consists of `RTN` alone is still
running after its first iteration, with `BP = 0` and `PC = 0`. -/
theorem rtn_initial_counterexample :
    (initVM (callocVM 8 16)).BP = CInt.ofInt 1
    ∧ executeInstruction (initVM (callocVM 8 16)) (Instruction.ofInts 2 0 0 0) idleChannels
        = some ({ initVM (callocVM 8 16) with
                    SP := CInt.ofInt 0, BP := CInt.ofInt 0, PC := CInt.ofInt 0 },
            idleChannels, Status.CONT)
    ∧ (match runLoop [Instruction.ofInts 2 0 0 0] 1 (initSim 8 16 []) with
        | Outcome.running s => some (s.vm.BP, s.vm.PC, s.ch.vmErr)
        | _ => none) = some (CInt.ofInt 0, CInt.ofInt 0, 0) := by
  decide

/-- C11, as the code has it, in the initial state with 8 registers and 16
stack slots. -/
theorem rtn_unchecked_witness :
    executeInstruction (initVM (callocVM 8 16)) (Instruction.ofInts 2 0 0 0) idleChannels
      = some ({ initVM (callocVM 8 16) with
                  SP := CInt.ofInt 0, BP := CInt.ofInt 0, PC := CInt.ofInt 0 },
          idleChannels, Status.CONT) :=
  (rtn_unchecked (initVM (callocVM 8 16)) (Instruction.ofInts 2 0 0 0) idleChannels
    (by decide)).2 8 16 (by decide)

/-- C12 fails as stated: in the initial state, where no `CAL` has run,
`getBasePointer` returns the base `0` for the levels `1` and `2`, and
`LOD 0 1 1` returns `CONT` after loading from the slot that this base gives. -/
theorem static_chain_counterexample :
    getBasePointer (initVM (callocVM 8 16)).stack (initVM (callocVM 8 16)).BP (CInt.ofInt 1)
      = some (CInt.ofInt 0)
    ∧ getBasePointer (initVM (callocVM 8 16)).stack (initVM (callocVM 8 16)).BP (CInt.ofInt 2)
      = some (CInt.ofInt 0)
    ∧ (executeInstruction (initVM (callocVM 8 16)) (Instruction.ofInts 3 0 1 1)
        idleChannels).map (fun res => (res.2.1.vmErr, res.2.2)) = some (0, Status.CONT) := by
  decide

/-- C12, as the code has it, at level `2` inside a procedure whose static link
is `1`: the result is slot `1` of the stack, the value read last, and not the
static link itself, which is read first; and at level `2` in the initial
state. -/
theorem getBasePointer_unchecked_witness :
    getBasePointer calleeVM.stack calleeVM.BP (CInt.ofInt 1) = some (CInt.ofInt 1)
    ∧ getBasePointer calleeVM.stack calleeVM.BP (CInt.ofInt 2) = some (CInt.ofInt 0)
    ∧ getBasePointer (initVM (callocVM 8 16)).stack (initVM (callocVM 8 16)).BP
        (CInt.ofInt 2) = some (CInt.ofInt 0) :=
  ⟨((getBasePointer_unchecked calleeVM.stack calleeVM.BP (CInt.ofInt 1)).2.1
      (by decide)).trans (by decide),
   ((getBasePointer_unchecked calleeVM.stack calleeVM.BP (CInt.ofInt 2)).2.1
      (by decide)).trans (by decide),
   (getBasePointer_unchecked [] (CInt.ofInt 1) (CInt.ofInt 2)).2.2.2 8 16 (by decide)
      (by decide)⟩

/-- C13 fails as stated: from the initial state with 16 stack slots `INC 0 0 -1`
returns `CONT` with `SP = -1` and `INC 0 0 16` returns `CONT` with `SP = 16`,
the capacity; the loop of `simulateVM` on `INC 0 0 16` is still running after
that iteration, with `SP = 16`. -/
theorem inc_counterexample :
    (initVM (callocVM 8 16)).stack.length = 16
    ∧ (executeInstruction (initVM (callocVM 8 16)) (Instruction.ofInts 6 0 0 (-1))
        idleChannels).map (fun res => (res.1.SP.val, res.2.2)) = some (-1, Status.CONT)
    ∧ (executeInstruction (initVM (callocVM 8 16)) (Instruction.ofInts 6 0 0 16)
        idleChannels).map (fun res => (res.1.SP.val, res.2.2)) = some (16, Status.CONT)
    ∧ (match runLoop [Instruction.ofInts 6 0 0 16] 1 (initSim 8 16 []) with
        | Outcome.running s => some s.vm.SP.val
        | _ => none) = some 16 := by
  decide

/-- C13, as the code has it, at `INC 0 0 -1` in the initial state. -/
theorem inc_unchecked_witness :
    executeInstruction (initVM (callocVM 8 16)) (Instruction.ofInts 6 0 0 (-1)) idleChannels
      = some ({ initVM (callocVM 8 16) with SP := CInt.ofInt (-1) }, idleChannels,
          Status.CONT) :=
  (inc_unchecked (initVM (callocVM 8 16)) (Instruction.ofInts 6 0 0 (-1)) idleChannels
    (by decide)).2 8 16

/-- C14 at `ADD 7 2 3` with `RF[2] = INT_MAX` and `RF[3] = 1`: register `7`
gets `INT_MIN`. -/
theorem arithmetic_wraps_witness :
    executeInstruction arithVM (Instruction.ofInts 13 7 2 3) idleChannels
      = some ({ arithVM with RF := arithVM.RF.set 7 (CInt.ofInt (-2147483648)) },
          idleChannels, Status.CONT) := by
  obtain ⟨x, h1, h2, -⟩ :=
    ((arithmetic_wraps arithVM (Instruction.ofInts 13 7 2 3) idleChannels
      (CInt.ofInt 2147483647) (by decide) (by decide)).2 (CInt.ofInt 1) (by decide)).1
      (by decide)
  have hx := x.2
  have ha : (CInt.ofInt 2147483647).val = 2147483647 := by decide
  have hb : (CInt.ofInt 1).val = 1 := by decide
  rw [ha, hb] at h2
  have hxv : x = CInt.ofInt (-2147483648) :=
    Subtype.ext (show x.val = -2147483648 by omega)
  rw [h1, hxv]
  rfl

/-- C15 at the first iteration of the program `LIT 0 0 3; ...` from the initial
state: the iteration is defined and leaves `PC = 1`. -/
theorem step_program_counter_witness :
    ∃ s1 st, simStep (sumProgram ++ [Instruction.ofInts 11 0 0 3]) (initSim 8 16 [])
        = some (s1, st)
      ∧ s1.vm.PC.val = 1 := by
  have hs := (step_program_counter (sumProgram ++ [Instruction.ofInts 11 0 0 3])
    (initSim 8 16 []) (by decide)).2 (Instruction.ofInts 1 0 0 3) (by decide)
    ((executeInstruction_isSome_iff _ _ idleChannels).mp (by decide))
    (by decide) (by decide) (by decide) (by decide)
  obtain ⟨⟨s1, st⟩, h⟩ := Option.isSome_iff_exists.mp hs
  obtain ⟨ins, hf, -, -, hpc, -⟩ :=
    (step_program_counter (sumProgram ++ [Instruction.ofInts 11 0 0 3])
      (initSim 8 16 []) (by decide)).1 s1 st h
  have hins : ins = Instruction.ofInts 1 0 0 3 := by
    have hf2 : fetch (sumProgram ++ [Instruction.ofInts 11 0 0 3]) (initSim 8 16 []).vm.PC
        = some (Instruction.ofInts 1 0 0 3) := by decide
    rw [hf2] at hf
    exact (Option.some.inj hf).symm
  subst hins
  exact ⟨s1, st, h, hpc (by decide) (by decide) (by decide) (by decide)⟩

/-- C16 fails as stated: `frameProgram` run from the initial state reaches
`frameVM` after five iterations; there `executeInstruction` on `RTN` (with `PC`
incremented) leaves the stack as it is, with the `7` of the local in slot `9`
and the frame header in slots `5 .. 7`, while the sixth iteration of the loop
leaves the slots `5 .. 9` zero. -/
theorem bookkeeping_counterexample :
    (match runLoop frameProgram 5 (initSim 8 16 []) with
      | Outcome.running s => some s.vm
      | _ => none) = some frameVM
    ∧ (executeInstruction { frameVM with IR := CInt.ofInt 2, PC := CInt.ofInt 7 }
        (Instruction.ofInts 2 0 0 0) idleChannels).map (fun res => res.1.stack)
      = some (cints [0, 0, 0, 0, 0, 1, 1, 2, 0, 7, 0, 0, 0, 0, 0, 0])
    ∧ (match runLoop frameProgram 6 (initSim 8 16 []) with
        | Outcome.running s => some s.vm.stack
        | _ => none)
      = some (cints [0, 0, 0, 0, 0, 0, 0, 0, 0, 0, 0, 0, 0, 0, 0, 0]) := by
  decide

/-- C16, as the code has it, at the iteration of `frameProgram` that executes
`RTN`. -/
theorem bookkeeping_effect_witness :
    ∃ s1 st ins vm2 ch2, simStep frameProgram frameSim = some (s1, st)
      ∧ fetch frameProgram frameSim.vm.PC = some ins
      ∧ executeInstruction
          (VirtualMachine.mk frameSim.vm.BP frameSim.vm.SP
            (frameSim.vm.PC.add (CInt.ofInt 1)) ins.op frameSim.vm.RF frameSim.vm.stack)
          ins frameSim.ch = some (vm2, ch2, st)
      ∧ s1.vm.RF = vm2.RF ∧ s1.vm.PC = vm2.PC ∧ s1.vm.BP = vm2.BP ∧ s1.vm.SP = vm2.SP
      ∧ s1.vm.stack.length = vm2.stack.length := by
  obtain ⟨⟨s1, st⟩, h⟩ := Option.isSome_iff_exists.mp
    (show (simStep frameProgram frameSim).isSome = true by decide)
  obtain ⟨ins, vm2, ch2, h1, h2, -, h3, h4, h5, h6, h7, -⟩ :=
    bookkeeping_effect frameProgram frameSim s1 st h
  exact ⟨s1, st, ins, vm2, ch2, h, h1, h2, h3, h4, h5, h6, h7⟩

/-- C17 at `LIT 2 0 9`: register `2` gets `9` and nothing else changes. -/
theorem register_instruction_frame_witness :
    ∃ v1, executeInstruction sampleVM (Instruction.ofInts 1 2 0 9) idleChannels
        = some (v1, idleChannels, Status.CONT)
      ∧ v1.stack = sampleVM.stack ∧ v1.PC = sampleVM.PC ∧ v1.BP = sampleVM.BP
      ∧ v1.SP = sampleVM.SP
      ∧ slotAt v1.RF 2 = some (CInt.ofInt 9) := by
  obtain ⟨v1, h1, -, -, h2, h3, h4, h5, h6⟩ :=
    register_instruction_frame sampleVM (Instruction.ofInts 1 2 0 9) idleChannels
      (Or.inl (by decide)) ((executeInstruction_isSome_iff _ _ idleChannels).mp (by decide))
  exact ⟨v1, h1, h2, h3, h4, h5, h6 (by decide)⟩

/-- C18 inside a procedure, one level up: `STO 0 1 3` then `LOD 1 1 3` leaves
the `5` of register `0` in register `1`. -/
theorem store_then_load_witness :
    ∃ v1 v2,
      executeInstruction calleeVM (Instruction.ofInts 4 0 1 3) idleChannels
        = some (v1, idleChannels, Status.CONT)
      ∧ executeInstruction v1 (Instruction.ofInts 3 1 1 3) idleChannels
        = some (v2, idleChannels, Status.CONT)
      ∧ slotAt v2.RF 1 = some (CInt.ofInt 5) := by
  obtain ⟨v1, v2, h1, -, -, -, -, -, -, -, h2, h3⟩ :=
    store_then_load calleeVM (Instruction.ofInts 4 0 1 3) (Instruction.ofInts 3 1 1 3)
      idleChannels (CInt.ofInt 1) (CInt.ofInt 5) (by decide) (by decide) (by decide)
      (by decide) (by decide) (by decide) (by decide) (by decide) (by decide) (by decide)
      (Or.inr (by decide))
  exact ⟨v1, v2, h1, h2, h3⟩

/-- C19 at `-7` and `2`: `DIV 7 0 1` writes `-3` and `MOD 7 0 1` writes `-1`. -/
theorem div_mod_truncate_witness :
    executeInstruction arithVM (Instruction.ofInts 16 7 0 1) idleChannels
      = some ({ arithVM with RF := arithVM.RF.set 7 (CInt.ofInt (-3)) },
          idleChannels, Status.CONT)
    ∧ executeInstruction arithVM (Instruction.ofInts 18 7 0 1) idleChannels
      = some ({ arithVM with RF := arithVM.RF.set 7 (CInt.ofInt (-1)) },
          idleChannels, Status.CONT) := by
  obtain ⟨q, rem, h1, h2, h3, h4, h5⟩ :=
    div_mod_truncate arithVM (Instruction.ofInts 16 7 0 1) (Instruction.ofInts 18 7 0 1)
      idleChannels (CInt.ofInt (-7)) (CInt.ofInt 2) (by decide) (by decide) (by decide)
      (by decide) (by decide) (by decide) (by decide) (by decide) (by decide) (by decide)
  have ha : (CInt.ofInt (-7)).val = -7 := by decide
  have hb : (CInt.ofInt 2).val = 2 := by decide
  rw [ha, hb] at h3
  rw [ha] at h5
  rw [hb, show |(2 : Int)| = 2 by decide] at h4
  have h6 := abs_lt.mp h4
  have hr : rem = CInt.ofInt (-1) := Subtype.ext (show rem.val = -1 by omega)
  have hq : q = CInt.ofInt (-3) := Subtype.ext (show q.val = -3 by omega)
  rw [h1, h2, hr, hq]
  exact ⟨rfl, rfl⟩

/-- C20 at `ODD 0 5 6` with `RF[0] = -7`: register `0` gets `-1`. -/
theorem odd_writes_truncated_remainder_witness :
    executeInstruction arithVM (Instruction.ofInts 17 0 5 6) idleChannels
      = some ({ arithVM with RF := arithVM.RF.set 0 (CInt.ofInt (-1)) },
          idleChannels, Status.CONT) := by
  obtain ⟨y, h1, -, -, h2, -⟩ :=
    odd_writes_truncated_remainder arithVM (Instruction.ofInts 17 0 5 6) idleChannels
      (CInt.ofInt (-7)) (by decide) (by decide)
  have hy : y = CInt.ofInt (-1) := Subtype.ext (h2 (by decide) (by decide))
  rw [h1, hy]
  rfl

/-! ## Steps that have no result -/

/-- C1 fails as stated: `chainProgram` run from the initial state reaches
`chainVM`, where `SP = BP = 1`, the slots `1 .. 4` are inside the stack and the
chain of three static links from `BP` reads slot `1` three times and gives `1`;
but `CAL 0 3 9` sets slot `1` to `0` before it chases, reads slot `1`, then
slot `0`, then slot `-5`, and has no result. -/
theorem cal_chain_counterexample :
    (match runLoop chainProgram 5 (initSim 8 16 []) with
      | Outcome.running s => some s.vm
      | _ => none) = some chainVM
    ∧ (0 ≤ chainVM.SP.val ∧ chainVM.SP.val + 3 < chainVM.stack.length)
    ∧ chainSlots chainVM.stack 3 chainVM.BP = [1, 1, 1]
    ∧ getBasePointer chainVM.stack chainVM.BP (CInt.ofInt 3) = some (CInt.ofInt 1)
    ∧ chainSlots (chainVM.stack.set chainVM.SP.val.toNat (CInt.ofInt 0)) 3 chainVM.BP
        = [1, 0, -5]
    ∧ executeInstruction chainVM (Instruction.ofInts 5 0 3 9) idleChannels = none := by
  decide

/-- C9 fails as stated: in the initial state, where every register holds `0`,
the recognized opcodes `DIV` and `MOD` give no status at all, neither `CONT`
nor `HALT`, and the loop of `simulateVM` on `DIV 0 0 0` has no defined
outcome. -/
theorem no_status_counterexample :
    executeInstruction (initVM (callocVM 8 16)) (Instruction.ofInts 16 0 0 0) idleChannels
      = none
    ∧ executeInstruction (initVM (callocVM 8 16)) (Instruction.ofInts 18 0 0 0) idleChannels
      = none
    ∧ (match runLoop [Instruction.ofInts 16 0 0 0] 1 (initSim 8 16 []) with
        | Outcome.undefined => true
        | _ => false) = true := by
  decide

/-- C17 fails as stated: with valid register indices, `RF[4] = INT_MIN` and the
non-zero divisor `RF[6] = -1`, `DIV 7 4 6` and `MOD 7 4 6` have no result. -/
theorem div_overflow_counterexample :
    (validIdx arithVM.RF (CInt.ofInt 7) ∧ validIdx arithVM.RF (CInt.ofInt 4)
      ∧ validIdx arithVM.RF (CInt.ofInt 6))
    ∧ readAt arithVM.RF (CInt.ofInt 4) = some (CInt.ofInt (-2147483648))
    ∧ readAt arithVM.RF (CInt.ofInt 6) = some (CInt.ofInt (-1))
    ∧ executeInstruction arithVM (Instruction.ofInts 16 7 4 6) idleChannels = none
    ∧ executeInstruction arithVM (Instruction.ofInts 18 7 4 6) idleChannels = none := by
  decide

end VM
